import Mathlib

/-!
Verification of the grample MCMC sampling engine against its specification.

This file shallowly embeds the Go source of the grample repository in Lean 4
and settles the specification claims about it.  Conventions of the embedding:

* Go `float64` values are modelled as real numbers (`ℝ`); `math.Sqrt`,
  `math.Log`, `math.Log2`, `math.Exp`, `math.Abs`, `math.Max` become
  `Real.sqrt`, `Real.log`, `Real.logb 2`, `Real.exp`, `|·|`, `max`.
* Go `int` values used as sizes, indices and counters (which are
  non-negative in every reachable state) are modelled as `Nat`; Go `int`
  values that can meaningfully be negative (cardinality parameters checked
  against `< 1`, fixed values with `-1` sentinel, returned indices which can
  be `-1`) are modelled as `Int`.
* Go slices become `List`s; out-of-range reads are modelled with `getD`
  (the claims proved always carry the in-range facts needed so the default
  is never relevant).
* Fallible Go functions returning `(T, error)` are modelled as
  `Except String T` when callers only proceed on success, and as an explicit
  pair when a claim is about the `(value, error)` pair itself.
* The random generator is abstracted: a uniform draw in `[0,1)` becomes an
  explicit `ℝ` parameter (with hypotheses `0 ≤ u` and `u < 1` where the
  generator contract matters).
-/

namespace Grample

/-! ## Ring buffer (`buffer/circular.go`) -/

/-- `CircularInt` from buffer/circular.go: fixed-size ring of ints with a
write cursor, a capped count and a total-seen counter. -/
structure CircularInt where
  buffer : List Int
  pos : Nat
  bufSize : Nat
  count : Nat
  totalSeen : Nat
  deriving Repr, DecidableEq

/-- `NewCircularInt`: rounds the requested size down to an even value. -/
def newCircularInt (totalSize : Nat) : CircularInt :=
  let half := totalSize / 2
  let total := half + half
  { buffer := List.replicate total 0
    pos := 0
    bufSize := total
    count := 0
    totalSeen := 0 }

/-- `nextPos`: the next array position after the write cursor. -/
def CircularInt.nextPos (c : CircularInt) : Nat :=
  (c.pos + 1) % c.bufSize

/-- `Add`: increments TotalSeen, overwrites the oldest slot, advances the
cursor and bumps Count (capped at BufSize). -/
def CircularInt.add (c : CircularInt) (i : Int) : CircularInt :=
  let buffer := c.buffer.set c.pos i
  let pos := c.nextPos
  let count := min (c.count + 1) c.bufSize
  { c with buffer := buffer, pos := pos, count := count,
           totalSeen := c.totalSeen + 1 }

/-- Fold `Add` over a list of values, oldest first. -/
def CircularInt.addAll (c : CircularInt) (xs : List Int) : CircularInt :=
  xs.foldl CircularInt.add c

/-- The iterator over a circular buffer: a cursor and a remaining count. -/
structure CircularIntIterator where
  curr : Nat
  remain : Nat
  deriving Repr, DecidableEq

/-- Collect all values an iterator yields via `Next`/`Value`: reads
`buffer[curr]`, advances `curr` modulo `BufSize`, decrements `remain`. -/
def CircularInt.iterList (c : CircularInt) : Nat → Nat → List Int
  | _, 0 => []
  | curr, remain + 1 =>
      c.buffer.getD curr 0 :: c.iterList ((curr + 1) % c.bufSize) remain

/-- `FirstHalf`: no-data sentinel while `Count < BufSize`; otherwise an
iterator starting at the write cursor yielding `BufSize/2` values. -/
def CircularInt.firstHalf (c : CircularInt) : Option CircularIntIterator :=
  if c.count < c.bufSize then none
  else some { curr := c.pos, remain := c.bufSize / 2 }

/-- `SecondHalf`: no-data sentinel while `Count < BufSize`; otherwise an
iterator starting `BufSize/2` slots past the cursor yielding `BufSize/2`
values. -/
def CircularInt.secondHalf (c : CircularInt) : Option CircularIntIterator :=
  if c.count < c.bufSize then none
  else some { curr := (c.pos + c.bufSize / 2) % c.bufSize, remain := c.bufSize / 2 }

/-- The values the first-half iterator yields (sentinel preserved). -/
def CircularInt.firstHalfVals (c : CircularInt) : Option (List Int) :=
  (c.firstHalf).map fun it => c.iterList it.curr it.remain

/-- The values the second-half iterator yields (sentinel preserved). -/
def CircularInt.secondHalfVals (c : CircularInt) : Option (List Int) :=
  (c.secondHalf).map fun it => c.iterList it.curr it.remain

end Grample

namespace Grample

/-! Invariants and window characterisation for the ring buffer. -/

/-- Well-formedness of a non-trivial buffer (Go panics on `Add` into a
zero-size buffer): positive size, storage of length `bufSize`, in-range
cursor. -/
structure CircularInt.WF (c : CircularInt) : Prop where
  size_pos : 0 < c.bufSize
  len_eq : c.buffer.length = c.bufSize
  pos_lt : c.pos < c.bufSize

theorem CircularInt.wf_new (n : Nat) (hn : 2 ≤ n) : (newCircularInt n).WF := by
  refine ⟨?_, by simp [newCircularInt], ?_⟩
  · show 0 < n / 2 + n / 2
    omega
  · show 0 < n / 2 + n / 2
    omega

theorem CircularInt.wf_add (c : CircularInt) (h : c.WF) (i : Int) : (c.add i).WF := by
  rcases h with ⟨hsz, hlen, hpos⟩
  refine ⟨by simpa [CircularInt.add] using hsz, by simpa [CircularInt.add] using hlen, ?_⟩
  simpa [CircularInt.add, CircularInt.nextPos] using Nat.mod_lt (c.pos + 1) hsz

/-- The window of a buffer: its contents starting at the write cursor, in
wall order (oldest slot first). -/
def CircularInt.window (c : CircularInt) : List Int :=
  c.iterList c.pos c.bufSize

/-- The last `n` elements of a list. -/
def lastN (n : Nat) (xs : List α) : List α := xs.drop (xs.length - n)

theorem CircularInt.iterList_eq_map (c : CircularInt) (curr r : Nat)
    (hc : curr < c.bufSize) :
    c.iterList curr r
      = (List.range r).map (fun j => c.buffer.getD ((curr + j) % c.bufSize) 0) := by
  induction r generalizing curr with
  | zero => simp [CircularInt.iterList]
  | succ r ih =>
      have hb : 0 < c.bufSize := Nat.pos_of_ne_zero (by omega)
      rw [List.range_succ_eq_map]
      simp only [CircularInt.iterList, List.map_cons, List.map_map]
      congr 1
      · simp [Nat.mod_eq_of_lt hc]
      · rw [ih _ (Nat.mod_lt _ hb)]
        refine List.map_congr_left fun j hj => ?_
        simp only [Function.comp_apply, Nat.succ_eq_add_one]
        rw [Nat.mod_add_mod]
        congr 2
        omega

theorem CircularInt.window_length (c : CircularInt) (h : c.WF) :
    c.window.length = c.bufSize := by
  rw [CircularInt.window, c.iterList_eq_map _ _ h.pos_lt]
  simp

theorem CircularInt.window_eq_map (c : CircularInt) (h : c.WF) :
    c.window = (List.range c.bufSize).map
      (fun j => c.buffer.getD ((c.pos + j) % c.bufSize) 0) :=
  c.iterList_eq_map c.pos c.bufSize h.pos_lt

theorem CircularInt.window_add (c : CircularInt) (h : c.WF) (i : Int) :
    (c.add i).window = c.window.drop 1 ++ [i] := by
  have hb := h.size_pos
  have hwf2 := c.wf_add h i
  have hmap2 : (c.add i).window = (List.range c.bufSize).map
      (fun j => (c.buffer.set c.pos i).getD (((c.pos + 1) % c.bufSize + j) % c.bufSize) 0) :=
    CircularInt.window_eq_map _ hwf2
  have hmap1 := CircularInt.window_eq_map c h
  have hblen : c.buffer.length = c.bufSize := h.len_eq
  obtain ⟨n, hn⟩ : ∃ n, c.bufSize = n + 1 := ⟨c.bufSize - 1, by omega⟩
  have hdropmap : ∀ f : Nat → Int,
      List.drop 1 (List.map f (List.range (n + 1)))
        = List.map (fun j => f (j + 1)) (List.range n) := by
    intro f
    rw [List.range_succ_eq_map, List.map_cons, List.drop_succ_cons, List.drop_zero,
        List.map_map]
    exact List.map_congr_left fun j _ => rfl
  rw [hmap2, hmap1, hn, hdropmap, List.range_succ, List.map_append]
  congr 1
  · -- for j < n the untouched slot (pos+1+j) mod B is read
    refine List.map_congr_left fun j hj => ?_
    have hjn : j < n := List.mem_range.mp hj
    have hidx : ((c.pos + 1) % (n + 1) + j) % (n + 1) = (c.pos + (1 + j)) % (n + 1) := by
      rw [Nat.mod_add_mod, Nat.add_assoc]
    have hne : c.pos ≠ (c.pos + (1 + j)) % (n + 1) := by
      intro hcontra
      have hmod : (c.pos + (1 + j)) % (n + 1) = c.pos % (n + 1) := by
        rw [← hcontra, Nat.mod_eq_of_lt (hn ▸ h.pos_lt)]
      have hd0 : (n + 1) ∣ (c.pos + (1 + j) - c.pos) :=
        (Nat.modEq_iff_dvd' (Nat.le_add_right _ _)).mp
          (by simpa [Nat.ModEq] using hmod.symm)
      have hd : (n + 1) ∣ (1 + j) := by simpa using hd0
      have := Nat.le_of_dvd (by omega) hd
      omega
    rw [hidx, List.getD_eq_getElem?_getD, List.getElem?_set_ne hne,
        ← List.getD_eq_getElem?_getD]
    congr 2
    omega
  · -- the final position reads the freshly written slot
    have hidx : ((c.pos + 1) % (n + 1) + n) % (n + 1) = c.pos := by
      rw [Nat.mod_add_mod]
      have heq : c.pos + 1 + n = c.pos + (n + 1) := by omega
      rw [heq, Nat.add_mod_right, Nat.mod_eq_of_lt (hn ▸ h.pos_lt)]
    simp only [List.map_cons, List.map_nil]
    rw [hidx, List.getD_eq_getElem?_getD,
        List.getElem?_set_eq_of_lt i (by rw [hblen]; exact h.pos_lt)]
    rfl

theorem CircularInt.window_addAll (c : CircularInt) (h : c.WF) (xs : List Int) :
    (c.addAll xs).window = lastN c.bufSize (c.window ++ xs) := by
  induction xs generalizing c with
  | nil =>
      simp [CircularInt.addAll, lastN, CircularInt.window_length _ h]
  | cons x xs ih =>
      have hstep : (c.addAll (x :: xs)) = (c.add x).addAll xs := rfl
      rw [hstep, ih _ (c.wf_add h x)]
      have hsz : ((c.add x).bufSize) = c.bufSize := rfl
      rw [hsz, CircularInt.window_add _ h]
      have hwlen : c.window.length = c.bufSize := CircularInt.window_length _ h
      have hpos := h.size_pos
      have hdrop : (c.window.drop 1 ++ [x]) ++ xs = (c.window ++ x :: xs).drop 1 := by
        rw [List.drop_append_of_le_length (by rw [hwlen]; exact hpos)]
        simp
      rw [hdrop, lastN, lastN, List.drop_drop]
      congr 1
      simp
      omega

theorem CircularInt.bufSize_addAll (c : CircularInt) (xs : List Int) :
    (c.addAll xs).bufSize = c.bufSize := by
  induction xs generalizing c with
  | nil => rfl
  | cons x xs ih => exact (ih (c.add x)).trans rfl

theorem CircularInt.count_addAll (c : CircularInt) (xs : List Int)
    (h : c.count ≤ c.bufSize) :
    (c.addAll xs).count = min (c.count + xs.length) c.bufSize := by
  induction xs generalizing c with
  | nil =>
      simp [CircularInt.addAll]
      omega
  | cons x xs ih =>
      have hstep : (c.addAll (x :: xs)) = (c.add x).addAll xs := rfl
      rw [hstep, ih (c.add x) (by simp [CircularInt.add])]
      have hcnt : (c.add x).count = min (c.count + 1) c.bufSize := rfl
      have hsz : (c.add x).bufSize = c.bufSize := rfl
      rw [hcnt, hsz]
      simp
      omega

theorem CircularInt.wf_addAll (c : CircularInt) (h : c.WF) (xs : List Int) :
    (c.addAll xs).WF := by
  induction xs generalizing c with
  | nil => exact h
  | cons x xs ih => exact ih _ (c.wf_add h x)

theorem CircularInt.firstHalfVals_full (c : CircularInt) (h : c.WF)
    (hcnt : ¬ c.count < c.bufSize) :
    c.firstHalfVals = some (c.window.take (c.bufSize / 2)) := by
  rw [CircularInt.firstHalfVals, CircularInt.firstHalf, if_neg hcnt]
  refine congrArg some ?_
  show c.iterList c.pos (c.bufSize / 2) = _
  rw [c.iterList_eq_map _ _ h.pos_lt, CircularInt.window_eq_map _ h,
      ← List.map_take, List.take_range,
      show min (c.bufSize / 2) c.bufSize = c.bufSize / 2 by omega]

theorem CircularInt.secondHalfVals_full (c : CircularInt) (h : c.WF)
    (heven : c.bufSize % 2 = 0) (hcnt : ¬ c.count < c.bufSize) :
    c.secondHalfVals = some (c.window.drop (c.bufSize / 2)) := by
  have hb := h.size_pos
  rw [CircularInt.secondHalfVals, CircularInt.secondHalf, if_neg hcnt]
  refine congrArg some ?_
  show c.iterList ((c.pos + c.bufSize / 2) % c.bufSize) (c.bufSize / 2) = _
  have hdrop : c.window.drop (c.bufSize / 2)
      = (List.range (c.bufSize / 2)).map
          (fun j => c.buffer.getD ((c.pos + (c.bufSize / 2 + j)) % c.bufSize) 0) := by
    rw [CircularInt.window_eq_map _ h]
    rw [show List.range c.bufSize
          = List.range (c.bufSize / 2) ++ (List.range (c.bufSize / 2)).map (c.bufSize / 2 + ·)
        by rw [← List.range_add]; congr 1; omega]
    rw [List.map_append,
        List.drop_left' (by simp), List.map_map]
    exact List.map_congr_left fun j _ => rfl
  rw [hdrop, c.iterList_eq_map _ _ (Nat.mod_lt _ hb)]
  refine List.map_congr_left fun j _ => ?_
  rw [Nat.mod_add_mod, Nat.add_assoc]

theorem CircularInt.window_new (n : Nat) (hn : 2 ≤ n) :
    (newCircularInt n).window = List.replicate (n / 2 + n / 2) 0 := by
  rw [CircularInt.window_eq_map _ (CircularInt.wf_new n hn)]
  refine List.eq_replicate_iff.mpr ⟨by simp [newCircularInt], fun b hb => ?_⟩
  obtain ⟨j, hj, rfl⟩ := List.mem_map.mp hb
  show (List.replicate (n / 2 + n / 2) (0 : Int)).getD _ 0 = 0
  rw [List.getD_eq_getElem?_getD, List.getElem?_replicate]
  split <;> rfl

theorem lastN_replicate_append (B : Nat) (xs : List Int) (h : B ≤ xs.length) :
    lastN B (List.replicate B (0 : Int) ++ xs) = lastN B xs := by
  rw [lastN, lastN, List.length_append, List.length_replicate]
  rw [show B + xs.length - B = xs.length by omega]
  rw [List.drop_append_eq_append_drop]
  rw [List.drop_eq_nil_of_le (by simp [h]), List.nil_append]
  congr 1
  simp

/-- C7: while fewer than `BufSize` values have been added to a ring buffer,
`FirstHalf` and `SecondHalf` return the no-data sentinel; once at least
`BufSize` values have been added, the first-half iterator yields the oldest
`BufSize/2` of the last `BufSize` values added (in insertion order) and the
second-half iterator yields the newest `BufSize/2`. -/
theorem claim_C7 (n : Nat) (hn : 2 ≤ n) (xs : List Int) :
    (xs.length < ((newCircularInt n).addAll xs).bufSize →
      ((newCircularInt n).addAll xs).firstHalfVals = none ∧
      ((newCircularInt n).addAll xs).secondHalfVals = none) ∧
    (((newCircularInt n).addAll xs).bufSize ≤ xs.length →
      ((newCircularInt n).addAll xs).firstHalfVals
        = some ((lastN ((newCircularInt n).addAll xs).bufSize xs).take
                  (((newCircularInt n).addAll xs).bufSize / 2)) ∧
      ((newCircularInt n).addAll xs).secondHalfVals
        = some ((lastN ((newCircularInt n).addAll xs).bufSize xs).drop
                  (((newCircularInt n).addAll xs).bufSize / 2))) := by
  have hwf0 := CircularInt.wf_new n hn
  have hwf := CircularInt.wf_addAll _ hwf0 xs
  have hsz : ((newCircularInt n).addAll xs).bufSize = n / 2 + n / 2 :=
    CircularInt.bufSize_addAll _ xs
  have hcnt : ((newCircularInt n).addAll xs).count = min xs.length (n / 2 + n / 2) := by
    have := CircularInt.count_addAll (newCircularInt n) xs (by simp [newCircularInt])
    simpa [newCircularInt] using this
  constructor
  · intro hlt
    rw [hsz] at hlt
    have hlt2 : ((newCircularInt n).addAll xs).count < ((newCircularInt n).addAll xs).bufSize := by
      rw [hcnt, hsz]
      omega
    constructor
    · rw [CircularInt.firstHalfVals, CircularInt.firstHalf, if_pos hlt2]
      rfl
    · rw [CircularInt.secondHalfVals, CircularInt.secondHalf, if_pos hlt2]
      rfl
  · intro hge
    rw [hsz] at hge
    have hfull : ¬ ((newCircularInt n).addAll xs).count < ((newCircularInt n).addAll xs).bufSize := by
      rw [hcnt, hsz]
      omega
    have hwin : ((newCircularInt n).addAll xs).window
        = lastN ((newCircularInt n).addAll xs).bufSize xs := by
      rw [CircularInt.window_addAll _ hwf0 xs, CircularInt.window_new n hn, hsz]
      exact lastN_replicate_append _ xs hge
    refine ⟨?_, ?_⟩
    · rw [CircularInt.firstHalfVals_full _ hwf hfull, hwin]
    · rw [CircularInt.secondHalfVals_full _ hwf (by rw [hsz]; omega) hfull, hwin]

/-- Witness for C7: a size-6 buffer after adding 1,2,3,4,5,6,8,8 yields
3,4,5 from the first half and 6,8,8 from the second half; moreover after only
five adds both halves are the no-data sentinel. -/
theorem claim_C7_wit :
    ((newCircularInt 6).addAll [1, 2, 3, 4, 5]).firstHalfVals = none ∧
    ((newCircularInt 6).addAll [1, 2, 3, 4, 5, 6, 8, 8]).firstHalfVals = some [3, 4, 5] ∧
    ((newCircularInt 6).addAll [1, 2, 3, 4, 5, 6, 8, 8]).secondHalfVals = some [6, 8, 8] := by
  have h1 := (claim_C7 6 (by norm_num) [1, 2, 3, 4, 5]).1 (by decide)
  have h2 := (claim_C7 6 (by norm_num) [1, 2, 3, 4, 5, 6, 8, 8]).2 (by decide)
  refine ⟨h1.1, ?_, ?_⟩
  · rw [h2.1]
    decide
  · rw [h2.2]
    decide

/-! ## Sampling primitives (`sampler/sampler.go`) -/

/-- `maxCard` from sampler/sampler.go: the maximum cardinality supported by
`UniSample` and `WeightedSample` (`1 << 30`). -/
def maxCard : Int := 2 ^ 30

/-- The total-weight accumulation loop of `WeightedSample`: walks the weight
array in order, failing at the first weight `w <= 0.0`, otherwise summing. -/
noncomputable def weightsTotal : List ℝ → Except String ℝ
  | [] => .ok 0
  | w :: ws =>
      if w ≤ 0 then .error "Weights must be > 0.0"
      else (weightsTotal ws).map (w + ·)

/-- The selection loop of `WeightedSample`: returns the first index `i` with
`r <= weights[i]`, subtracting each passed weight from `r`; `none` models the
loop falling through with `selVal` still `-1`. -/
noncomputable def weightedScan (r : ℝ) : List ℝ → Nat → Option Nat
  | [], _ => none
  | w :: ws, i => if r ≤ w then some i else weightedScan (r - w) ws (i + 1)

/-- `UniformSampler.WeightedSample(card, weights)` from sampler/sampler.go.
The generator draw `s.gen.Float64()` is passed in as `u`. -/
noncomputable def weightedSample (card : Int) (weights : List ℝ) (u : ℝ) :
    Except String Int :=
  if card < 1 then .error "Can not sample if Cardinality < 1"
  else if card > maxCard then .error "Cardinality above maxCard not supported"
  else if (weights.length : Int) ≠ card then .error "Weight array size must match cardinality"
  else if card = 1 then .ok 0
  else
    match weightsTotal weights with
    | .error e => .error e
    | .ok totWeight =>
        match weightedScan (u * totWeight) weights 0 with
        | some i => .ok (i : Int)
        | none => .error "Failed to sample"

theorem weightsTotal_ok (ws : List ℝ) (h : ∀ w ∈ ws, ¬ w ≤ 0) :
    weightsTotal ws = .ok ws.sum := by
  induction ws with
  | nil => rfl
  | cons w ws ih =>
      rw [weightsTotal, if_neg (h w (by simp)), ih (fun v hv => h v (by simp [hv]))]
      rfl

theorem weightsTotal_err (ws : List ℝ) (h : ∃ w ∈ ws, w ≤ 0) :
    ∃ e, weightsTotal ws = .error e := by
  induction ws with
  | nil => simp at h
  | cons w ws ih =>
      by_cases hw : w ≤ 0
      · exact ⟨_, by rw [weightsTotal, if_pos hw]⟩
      · obtain ⟨v, hv, hv0⟩ := h
        rcases List.mem_cons.mp hv with rfl | hv2
        · exact absurd hv0 hw
        · obtain ⟨e, he⟩ := ih ⟨v, hv2, hv0⟩
          exact ⟨e, by rw [weightsTotal, if_neg hw, he]; rfl⟩

theorem weightedScan_total (ws : List ℝ) (r : ℝ) (k : Nat)
    (h0 : 0 ≤ r) (hr : r < ws.sum) :
    ∃ i, weightedScan r ws k = some i := by
  induction ws generalizing r k with
  | nil => simp at hr; linarith
  | cons w ws ih =>
      by_cases hw : r ≤ w
      · exact ⟨k, by rw [weightedScan, if_pos hw]⟩
      · have hsum : r - w < ws.sum := by
          simp only [List.sum_cons] at hr
          linarith
        obtain ⟨i, hi⟩ := ih (r - w) (k + 1) (by linarith [not_le.mp hw]) hsum
        exact ⟨i, by rw [weightedScan, if_neg hw, hi]⟩

theorem weightedScan_bounds (ws : List ℝ) (r : ℝ) (k i : Nat)
    (h : weightedScan r ws k = some i) : k ≤ i ∧ i < k + ws.length := by
  induction ws generalizing r k with
  | nil => simp [weightedScan] at h
  | cons w ws ih =>
      rw [weightedScan] at h
      split at h
      · cases h
        simp
      · obtain ⟨h1, h2⟩ := ih _ _ h
        constructor
        · omega
        · simp only [List.length_cons]
          omega

/-- Counterexample to C5 as stated: with `card = 2` and weights `[0, 1]`
(matching length, card in range, all weights non-negative, positive total)
`WeightedSample` nevertheless returns an error, because the code rejects any
weight `w <= 0.0`, not only negative weights. -/
theorem claim_C5_cex :
    (∃ e, weightedSample 2 [(0 : ℝ), 1] 0 = .error e) ∧
    (∀ w ∈ [(0 : ℝ), 1], 0 ≤ w) ∧ (0 : ℝ) + 1 > 0 ∧
    ([(0 : ℝ), 1].length : Int) = 2 ∧ (1 : Int) ≤ 2 ∧ (2 : Int) ≤ maxCard := by
  refine ⟨⟨"Weights must be > 0.0", ?_⟩, by norm_num, by norm_num, by norm_num, by norm_num, by norm_num [maxCard]⟩
  rw [weightedSample, if_neg (by norm_num), if_neg (by norm_num [maxCard]),
      if_neg (by norm_num), if_neg (by norm_num)]
  rw [show weightsTotal [(0 : ℝ), 1] = .error "Weights must be > 0.0" by
        rw [weightsTotal, if_pos le_rfl]]

/-- C5 (amended): given a generator draw `u` in `[0,1)`, `WeightedSample`
errors exactly when the weight-array length differs from `card`, `card` is
outside `[1, 2^30]`, or `card >= 2` and some weight is `<= 0` (zero weights
are rejected too, and for `card = 1` the weights are never inspected);
moreover every successful draw returns an index in `[0, card)`. -/
theorem claim_C5 (card : Int) (ws : List ℝ) (u : ℝ) (hu0 : 0 ≤ u) (hu1 : u < 1) :
    ((∃ e, weightedSample card ws u = .error e) ↔
      ((ws.length : Int) ≠ card ∨ card < 1 ∨ card > maxCard ∨
        (2 ≤ card ∧ ∃ w ∈ ws, w ≤ 0))) ∧
    (∀ i, weightedSample card ws u = .ok i → 0 ≤ i ∧ i < card) := by
  constructor
  · constructor
    · -- error implies one of the conditions (contrapositive)
      intro ⟨e, he⟩
      by_contra hcon
      push_neg at hcon
      obtain ⟨hlen, h1, hmax, hpos⟩ := hcon
      rw [weightedSample, if_neg (by omega), if_neg (by omega), if_neg (by omega)] at he
      by_cases hc1 : card = 1
      · rw [if_pos hc1] at he
        cases he
      · rw [if_neg hc1] at he
        have hall : ∀ w ∈ ws, ¬ w ≤ 0 := fun w hw hw0 =>
          absurd (hpos (by omega) w hw) (not_lt.mpr hw0)
        rw [weightsTotal_ok ws hall] at he
        have hne : ws ≠ [] := by
          intro hnil
          rw [hnil] at hlen
          simp at hlen
          omega
        have hsumpos : 0 < ws.sum := by
          obtain ⟨w, hw⟩ := List.exists_mem_of_ne_nil ws hne
          have hwpos : 0 < w := not_le.mp (hall w hw)
          have : ∀ v ∈ ws, 0 ≤ v := fun v hv => le_of_lt (not_le.mp (hall v hv))
          calc 0 < w := hwpos
            _ ≤ ws.sum := List.single_le_sum this w hw
        obtain ⟨i, hi⟩ := weightedScan_total ws (u * ws.sum) 0
          (mul_nonneg hu0 (le_of_lt hsumpos))
          (by nlinarith)
        have he2 : (match weightedScan (u * ws.sum) ws 0 with
            | some i => (Except.ok (i : Int) : Except String Int)
            | none => Except.error "Failed to sample") = Except.error e := he
        rw [hi] at he2
        cases he2
    · -- each condition yields an error
      intro hcond
      rw [weightedSample]
      by_cases h1 : card < 1
      · exact ⟨_, by rw [if_pos h1]⟩
      · rw [if_neg h1]
        by_cases hmax : card > maxCard
        · exact ⟨_, by rw [if_pos hmax]⟩
        · rw [if_neg hmax]
          by_cases hlen : (ws.length : Int) ≠ card
          · exact ⟨_, by rw [if_pos hlen]⟩
          · rw [if_neg hlen]
            rcases hcond with hc | hc | hc | hc
            · exact absurd hc hlen
            · exact absurd hc h1
            · exact absurd hc hmax
            · obtain ⟨hc2, hw⟩ := hc
              rw [if_neg (by omega)]
              obtain ⟨e, he⟩ := weightsTotal_err ws hw
              exact ⟨e, by rw [he]⟩
  · -- any success is an index in range
    intro i hi
    rw [weightedSample] at hi
    split at hi
    · cases hi
    · split at hi
      · cases hi
      · split at hi
        · cases hi
        · rename_i hlen
          split at hi
          · cases hi
            rename_i hc1
            omega
          · split at hi
            · cases hi
            · rename_i heq
              split at hi
              · rename_i j hj
                cases hi
                have hb := weightedScan_bounds ws _ _ _ hj
                push_neg at hlen
                constructor
                · exact Int.ofNat_nonneg j
                · rw [← hlen]
                  have hj2 : j < ws.length := by
                    have := hb.2
                    omega
                  exact_mod_cast hj2
              · cases hi

/-- Witness for C5 (amended): at `card = 2`, strictly positive weights
`[1, 2]` and draw `u = 0` the sampler does not error, and any returned index
lies in `[0, 2)`. -/
theorem claim_C5_wit :
    (¬ ∃ e, weightedSample 2 [(1 : ℝ), 2] 0 = .error e) ∧
    (∀ i, weightedSample 2 [(1 : ℝ), 2] 0 = .ok i → 0 ≤ i ∧ i < 2) := by
  have h := claim_C5 2 [(1 : ℝ), 2] 0 le_rfl (by norm_num)
  refine ⟨fun hcon => ?_, h.2⟩
  have hc := h.1.mp hcon
  rcases hc with hc | hc | hc | hc
  · simp at hc
  · omega
  · rw [maxCard] at hc
    omega
  · obtain ⟨-, w, hw, hw0⟩ := hc
    rcases List.mem_cons.mp hw with rfl | hw2
    · norm_num at hw0
    · rcases List.mem_cons.mp hw2 with rfl | hw3
      · norm_num at hw0
      · simp at hw3

/-! ## Variables (`model/variable.go`) and divergence metrics (error.go) -/

/-- `Variable` from model/variable.go.  Go `ID` and `Card` are non-negative
ints (enforced by `NewVariable`), modelled as `Nat`; `FixedVal` keeps its
`-1` sentinel and stays `Int`; the open `State` map reads missing keys as 0,
modelled as a total function. -/
structure Variable where
  id : Nat
  name : String
  card : Nat
  fixedVal : Int
  marginal : List ℝ
  state : String → ℝ
  collapsed : Bool

/-- `Variable.Clone` from model/variable.go: the fresh marginal buffer has
length `Card` (`make([]float64, v.Card)`) and `copy` moves
`min Card (len Marginal)` entries, so the clone's marginal is the original
truncated to `Card` and zero-padded. -/
noncomputable def Variable.clone (v : Variable) : Variable :=
  { v with
      marginal := v.marginal.take v.card
        ++ List.replicate (v.card - v.marginal.length) 0 }

/-- `MaxAbsDiff` from error.go (part_029): normalizing totals clamped below
by `1e-12`, then the running-max loop with its `c == 0` special case. -/
noncomputable def maxAbsDiff (v1 v2 : Variable) : ℝ :=
  let card := v1.card
  let tot1r := ((List.range card).map (fun c => v1.marginal.getD c 0)).sum
  let tot2r := ((List.range card).map (fun c => v2.marginal.getD c 0)).sum
  let tot1 := if tot1r < 1e-12 then 1e-12 else tot1r
  let tot2 := if tot2r < 1e-12 then 1e-12 else tot2r
  (List.range card).foldl
    (fun maxErr c =>
      let err := |v1.marginal.getD c 0 / tot1 - v2.marginal.getD c 0 / tot2|
      if c = 0 ∨ err > maxErr then err else maxErr)
    0

/-- `MeanAbsDiff` from error.go (part_029). -/
noncomputable def meanAbsDiff (v1 v2 : Variable) : ℝ :=
  let card := v1.card
  if card < 1 then 0
  else
    let tot1r := ((List.range card).map (fun c => v1.marginal.getD c 0)).sum
    let tot2r := ((List.range card).map (fun c => v2.marginal.getD c 0)).sum
    let tot1 := if tot1r < 1e-12 then 1e-12 else tot1r
    let tot2 := if tot2r < 1e-12 then 1e-12 else tot2r
    ((List.range card).map
      (fun c => |v1.marginal.getD c 0 / tot1 - v2.marginal.getD c 0 / tot2|)).sum
      / card

/-- `HellingerDiff` from error.go (part_029): note the source returns
`errSum / math.Sqrt2` with NO square root of `errSum`. -/
noncomputable def hellingerDiff (v1 v2 : Variable) : ℝ :=
  let card := v1.card
  let tot1r := ((List.range card).map (fun c => v1.marginal.getD c 0)).sum
  let tot2r := ((List.range card).map (fun c => v2.marginal.getD c 0)).sum
  let tot1 := if tot1r < 1e-12 then 1e-12 else tot1r
  let tot2 := if tot2r < 1e-12 then 1e-12 else tot2r
  ((List.range card).map
    (fun c => (Real.sqrt (v1.marginal.getD c 0 / tot1)
                - Real.sqrt (v2.marginal.getD c 0 / tot2)) ^ 2)).sum
    / Real.sqrt 2

/-- `klDivergence` from error.go (part_029): iterates the first array,
reading the second at the same index (base-2 logarithm). -/
noncomputable def klDivergence (v1 v2 : List ℝ) : ℝ :=
  ((List.range v1.length).map
    (fun i => v1.getD i 0 * Real.logb 2 (v1.getD i 0 / v2.getD i 0))).sum

/-- `JSDivergence` from error.go (part_029): normalizes both marginals
(totals clamped below by `1e-12`), forms the midpoint and averages the two
KL divergences against it. -/
noncomputable def jsDivergence (v1 v2 : Variable) : ℝ :=
  let card := v1.card
  let tot1r := ((List.range card).map (fun c => v1.marginal.getD c 0)).sum
  let tot2r := ((List.range card).map (fun c => v2.marginal.getD c 0)).sum
  let tot1 := if tot1r < 1e-12 then 1e-12 else tot1r
  let tot2 := if tot2r < 1e-12 then 1e-12 else tot2r
  let p1Norm := (List.range v1.marginal.length).map (fun i => v1.marginal.getD i 0 / tot1)
  let p2Norm := (List.range v1.marginal.length).map (fun i => v2.marginal.getD i 0 / tot2)
  let mid := (List.range v1.marginal.length).map
    (fun i => (v1.marginal.getD i 0 / tot1 + v2.marginal.getD i 0 / tot2) * 0.5)
  0.5 * (klDivergence p1Norm mid + klDivergence p2Norm mid)

/-- The point distributions `[1,0]` and `[0,1]`: normalized (non-negative,
summing to 1) marginals of equal cardinality 2. -/
noncomputable def hellCexV1 : Variable :=
  { id := 0, name := "V1", card := 2, fixedVal := -1, marginal := [1, 0],
    state := fun _ => 0, collapsed := false }

/-- Second concrete distribution for the Hellinger bound violation. -/
noncomputable def hellCexV2 : Variable :=
  { id := 1, name := "V2", card := 2, fixedVal := -1, marginal := [0, 1],
    state := fun _ => 0, collapsed := false }

/-- C3: `HellingerDiff` on the normalized pair `[1,0]`, `[0,1]` evaluates to
`sqrt 2 > 1`, so the claimed `[0, 1]` bound fails on the code: the source
divides the squared-difference sum by `sqrt 2` but omits the square root of
the sum that the repository's own test (`TestErrorSuiteNormed`,
`hellExp := math.Sqrt(p1+p2) / math.Sqrt2`) expects. -/
theorem claim_C3 :
    hellingerDiff hellCexV1 hellCexV2 = Real.sqrt 2 ∧
    1 < hellingerDiff hellCexV1 hellCexV2 := by
  have h : hellingerDiff hellCexV1 hellCexV2 = 2 / Real.sqrt 2 := by
    rw [hellingerDiff]
    norm_num [hellCexV1, hellCexV2, List.range_succ]
  have h2 : hellingerDiff hellCexV1 hellCexV2 = Real.sqrt 2 := by
    rw [h, Real.div_sqrt]
  refine ⟨h2, ?_⟩
  rw [h2, show (1:ℝ) = Real.sqrt 1 by rw [Real.sqrt_one]]
  exact Real.sqrt_lt_sqrt (by norm_num) (by norm_num)

/-! ## `ErrorSuite` (error.go, part_029) -/

/-- `ErrorSuite` from error.go: the four metrics aggregated as means and
maxima. -/
structure ErrorSuite where
  meanMeanAbsError : ℝ
  meanMaxAbsError : ℝ
  meanHellinger : ℝ
  meanJSDiverge : ℝ
  maxMeanAbsError : ℝ
  maxMaxAbsError : ℝ
  maxHellinger : ℝ
  maxJSDiverge : ℝ

/-- The zero-initialised suite (`es := ErrorSuite{}`). -/
noncomputable def esZero : ErrorSuite := ⟨0, 0, 0, 0, 0, 0, 0, 0⟩

/-- One iteration of the accumulation loop of `NewErrorSuite`: adds each
metric into the running sums and takes `math.Max` with the running maxima. -/
noncomputable def esAccum (es : ErrorSuite) (p : Variable × Variable) : ErrorSuite :=
  { meanMeanAbsError := es.meanMeanAbsError + meanAbsDiff p.1 p.2
    meanMaxAbsError := es.meanMaxAbsError + maxAbsDiff p.1 p.2
    meanHellinger := es.meanHellinger + hellingerDiff p.1 p.2
    meanJSDiverge := es.meanJSDiverge + jsDivergence p.1 p.2
    maxMeanAbsError := max (meanAbsDiff p.1 p.2) es.maxMeanAbsError
    maxMaxAbsError := max (maxAbsDiff p.1 p.2) es.maxMaxAbsError
    maxHellinger := max (hellingerDiff p.1 p.2) es.maxHellinger
    maxJSDiverge := max (jsDivergence p.1 p.2) es.maxJSDiverge }

/-- Both variables of a pair are un-fixed (`FixedVal < 0`). -/
def bothUnfixed (p : Variable × Variable) : Bool :=
  decide (p.1.fixedVal < 0) && decide (p.2.fixedVal < 0)

/-- The cardinalities of a pair agree. -/
def cardsMatch (p : Variable × Variable) : Bool :=
  p.1.card == p.2.card

/-- `NewErrorSuite` from error.go (part_029).  Note the source's length
check compares `len(vars1)` with itself and so never fires; the cardinality
check and the un-fixed count come from the first loop, the accumulation from
the second loop, which runs over ALL positions; only the division uses the
un-fixed count.  The paired walk of `vars1`/`vars2` is modelled with `zip`
(the claims proved only concern equal-length inputs). -/
noncomputable def newErrorSuite (vars1 vars2 : List Variable) :
    Except String ErrorSuite :=
  if vars1.length ≠ vars1.length then .error "Variable count mismatch"
  else if ¬ ((vars1.zip vars2).all cardsMatch) then .error "Variable card mismatch"
  else
    let varCount := (vars1.zip vars2).countP bothUnfixed
    if varCount < 1 then .error "No un-fixed vars to score"
    else
      let acc := (vars1.zip vars2).foldl esAccum esZero
      .ok { acc with
              meanMeanAbsError := acc.meanMeanAbsError / varCount
              meanMaxAbsError := acc.meanMaxAbsError / varCount
              meanHellinger := acc.meanHellinger / varCount
              meanJSDiverge := acc.meanJSDiverge / varCount }

theorem foldl_max_spec (l : List ℝ) (a : ℝ) :
    a ≤ l.foldl (fun acc x => max x acc) a ∧
    (∀ x ∈ l, x ≤ l.foldl (fun acc x => max x acc) a) ∧
    (l.foldl (fun acc x => max x acc) a = a ∨ l.foldl (fun acc x => max x acc) a ∈ l) := by
  induction l generalizing a with
  | nil => exact ⟨le_rfl, by simp, Or.inl rfl⟩
  | cons x xs ih =>
      obtain ⟨h1, h2, h3⟩ := ih (max x a)
      refine ⟨le_trans (le_max_right x a) h1, ?_, ?_⟩
      · intro y hy
        rcases List.mem_cons.mp hy with rfl | hy2
        · exact le_trans (le_max_left y a) h1
        · exact h2 y hy2
      · rcases h3 with h3 | h3
        · rcases max_choice x a with hc | hc
          · exact Or.inr (by rw [List.foldl_cons, h3, hc]; simp)
          · exact Or.inl (by rw [List.foldl_cons, h3, hc])
        · exact Or.inr (List.mem_cons_of_mem x h3)

theorem foldl_esAccum_fields (ps : List (Variable × Variable)) (es : ErrorSuite) :
    (ps.foldl esAccum es).meanMeanAbsError
        = es.meanMeanAbsError + (ps.map (fun p => meanAbsDiff p.1 p.2)).sum ∧
    (ps.foldl esAccum es).meanMaxAbsError
        = es.meanMaxAbsError + (ps.map (fun p => maxAbsDiff p.1 p.2)).sum ∧
    (ps.foldl esAccum es).meanHellinger
        = es.meanHellinger + (ps.map (fun p => hellingerDiff p.1 p.2)).sum ∧
    (ps.foldl esAccum es).meanJSDiverge
        = es.meanJSDiverge + (ps.map (fun p => jsDivergence p.1 p.2)).sum ∧
    (ps.foldl esAccum es).maxMeanAbsError
        = (ps.map (fun p => meanAbsDiff p.1 p.2)).foldl (fun a x => max x a) es.maxMeanAbsError ∧
    (ps.foldl esAccum es).maxMaxAbsError
        = (ps.map (fun p => maxAbsDiff p.1 p.2)).foldl (fun a x => max x a) es.maxMaxAbsError ∧
    (ps.foldl esAccum es).maxHellinger
        = (ps.map (fun p => hellingerDiff p.1 p.2)).foldl (fun a x => max x a) es.maxHellinger ∧
    (ps.foldl esAccum es).maxJSDiverge
        = (ps.map (fun p => jsDivergence p.1 p.2)).foldl (fun a x => max x a) es.maxJSDiverge := by
  induction ps generalizing es with
  | nil => simp
  | cons p ps ih =>
      obtain ⟨i1, i2, i3, i4, i5, i6, i7, i8⟩ := ih (esAccum es p)
      simp only [List.foldl_cons, List.map_cons, List.sum_cons]
      refine ⟨?_, ?_, ?_, ?_, ?_, ?_, ?_, ?_⟩
      · rw [i1]; show es.meanMeanAbsError + _ + _ = _; ring
      · rw [i2]; show es.meanMaxAbsError + _ + _ = _; ring
      · rw [i3]; show es.meanHellinger + _ + _ = _; ring
      · rw [i4]; show es.meanJSDiverge + _ + _ = _; ring
      · rw [i5]; rfl
      · rw [i6]; rfl
      · rw [i7]; rfl
      · rw [i8]; rfl

/-- C4 (amended): for equal-length variable lists, when all cardinalities
match and at least one position has both variables un-fixed, `NewErrorSuite`
succeeds; each `Mean*` field is the sum of the metric over ALL positions
divided by the number of un-fixed positions (not the mean over the un-fixed
positions only), and each `Max*` field is the maximum of the metric over ALL
positions, floored at 0 by the zero initialisation (not the maximum over the
un-fixed positions only); with a cardinality mismatch or no un-fixed
position it returns an error. -/
theorem claim_C4 (vars1 vars2 : List Variable) (hlen : vars1.length = vars2.length) :
    ((∀ p ∈ vars1.zip vars2, p.1.card = p.2.card) →
      (∃ p ∈ vars1.zip vars2, bothUnfixed p) →
      ∃ es, newErrorSuite vars1 vars2 = .ok es ∧
        (es.meanMeanAbsError
            = ((vars1.zip vars2).map (fun p => meanAbsDiff p.1 p.2)).sum
                / ((vars1.zip vars2).countP bothUnfixed : ℝ) ∧
         es.meanMaxAbsError
            = ((vars1.zip vars2).map (fun p => maxAbsDiff p.1 p.2)).sum
                / ((vars1.zip vars2).countP bothUnfixed : ℝ) ∧
         es.meanHellinger
            = ((vars1.zip vars2).map (fun p => hellingerDiff p.1 p.2)).sum
                / ((vars1.zip vars2).countP bothUnfixed : ℝ) ∧
         es.meanJSDiverge
            = ((vars1.zip vars2).map (fun p => jsDivergence p.1 p.2)).sum
                / ((vars1.zip vars2).countP bothUnfixed : ℝ)) ∧
        ((∀ p ∈ vars1.zip vars2, meanAbsDiff p.1 p.2 ≤ es.maxMeanAbsError) ∧
         (es.maxMeanAbsError = 0 ∨ ∃ p ∈ vars1.zip vars2, meanAbsDiff p.1 p.2 = es.maxMeanAbsError)) ∧
        ((∀ p ∈ vars1.zip vars2, maxAbsDiff p.1 p.2 ≤ es.maxMaxAbsError) ∧
         (es.maxMaxAbsError = 0 ∨ ∃ p ∈ vars1.zip vars2, maxAbsDiff p.1 p.2 = es.maxMaxAbsError)) ∧
        ((∀ p ∈ vars1.zip vars2, hellingerDiff p.1 p.2 ≤ es.maxHellinger) ∧
         (es.maxHellinger = 0 ∨ ∃ p ∈ vars1.zip vars2, hellingerDiff p.1 p.2 = es.maxHellinger)) ∧
        ((∀ p ∈ vars1.zip vars2, jsDivergence p.1 p.2 ≤ es.maxJSDiverge) ∧
         (es.maxJSDiverge = 0 ∨ ∃ p ∈ vars1.zip vars2, jsDivergence p.1 p.2 = es.maxJSDiverge))) ∧
    ((¬ (∀ p ∈ vars1.zip vars2, p.1.card = p.2.card) ∨
        ¬ ∃ p ∈ vars1.zip vars2, bothUnfixed p) →
      ∃ e, newErrorSuite vars1 vars2 = .error e) := by
  constructor
  · intro hcard hunfix
    have hall : (vars1.zip vars2).all cardsMatch = true :=
      List.all_eq_true.mpr fun p hp => by simp [cardsMatch, hcard p hp]
    have hcnt : 0 < (vars1.zip vars2).countP bothUnfixed :=
      List.countP_pos.mpr hunfix
    rw [newErrorSuite, if_neg (by simp), if_neg (by simp [hall])]
    rw [if_neg (by omega)]
    obtain ⟨f1, f2, f3, f4, f5, f6, f7, f8⟩ :=
      foldl_esAccum_fields (vars1.zip vars2) esZero
    refine ⟨_, rfl, ⟨?_, ?_, ?_, ?_⟩, ?_, ?_, ?_, ?_⟩
    · show _ / _ = _
      rw [f1]
      show (esZero.meanMeanAbsError + _) / _ = _
      rw [esZero]
      ring
    · show _ / _ = _
      rw [f2]
      show (esZero.meanMaxAbsError + _) / _ = _
      rw [esZero]
      ring
    · show _ / _ = _
      rw [f3]
      show (esZero.meanHellinger + _) / _ = _
      rw [esZero]
      ring
    · show _ / _ = _
      rw [f4]
      show (esZero.meanJSDiverge + _) / _ = _
      rw [esZero]
      ring
    · obtain ⟨-, hub, hat⟩ :=
        foldl_max_spec ((vars1.zip vars2).map (fun p => meanAbsDiff p.1 p.2)) esZero.maxMeanAbsError
      constructor
      · intro p hp
        rw [show ({ (vars1.zip vars2).foldl esAccum esZero with
              meanMeanAbsError := _, meanMaxAbsError := _,
              meanHellinger := _, meanJSDiverge := _ } : ErrorSuite).maxMeanAbsError
            = ((vars1.zip vars2).foldl esAccum esZero).maxMeanAbsError from rfl, f5]
        exact hub _ (List.mem_map_of_mem _ hp)
      · rw [show ({ (vars1.zip vars2).foldl esAccum esZero with
              meanMeanAbsError := _, meanMaxAbsError := _,
              meanHellinger := _, meanJSDiverge := _ } : ErrorSuite).maxMeanAbsError
            = ((vars1.zip vars2).foldl esAccum esZero).maxMeanAbsError from rfl, f5]
        rcases hat with hat | hat
        · exact Or.inl hat
        · obtain ⟨p, hp, hpe⟩ := List.mem_map.mp hat
          exact Or.inr ⟨p, hp, hpe⟩
    · obtain ⟨-, hub, hat⟩ :=
        foldl_max_spec ((vars1.zip vars2).map (fun p => maxAbsDiff p.1 p.2)) esZero.maxMaxAbsError
      constructor
      · intro p hp
        rw [show ({ (vars1.zip vars2).foldl esAccum esZero with
              meanMeanAbsError := _, meanMaxAbsError := _,
              meanHellinger := _, meanJSDiverge := _ } : ErrorSuite).maxMaxAbsError
            = ((vars1.zip vars2).foldl esAccum esZero).maxMaxAbsError from rfl, f6]
        exact hub _ (List.mem_map_of_mem _ hp)
      · rw [show ({ (vars1.zip vars2).foldl esAccum esZero with
              meanMeanAbsError := _, meanMaxAbsError := _,
              meanHellinger := _, meanJSDiverge := _ } : ErrorSuite).maxMaxAbsError
            = ((vars1.zip vars2).foldl esAccum esZero).maxMaxAbsError from rfl, f6]
        rcases hat with hat | hat
        · exact Or.inl hat
        · obtain ⟨p, hp, hpe⟩ := List.mem_map.mp hat
          exact Or.inr ⟨p, hp, hpe⟩
    · obtain ⟨-, hub, hat⟩ :=
        foldl_max_spec ((vars1.zip vars2).map (fun p => hellingerDiff p.1 p.2)) esZero.maxHellinger
      constructor
      · intro p hp
        rw [show ({ (vars1.zip vars2).foldl esAccum esZero with
              meanMeanAbsError := _, meanMaxAbsError := _,
              meanHellinger := _, meanJSDiverge := _ } : ErrorSuite).maxHellinger
            = ((vars1.zip vars2).foldl esAccum esZero).maxHellinger from rfl, f7]
        exact hub _ (List.mem_map_of_mem _ hp)
      · rw [show ({ (vars1.zip vars2).foldl esAccum esZero with
              meanMeanAbsError := _, meanMaxAbsError := _,
              meanHellinger := _, meanJSDiverge := _ } : ErrorSuite).maxHellinger
            = ((vars1.zip vars2).foldl esAccum esZero).maxHellinger from rfl, f7]
        rcases hat with hat | hat
        · exact Or.inl hat
        · obtain ⟨p, hp, hpe⟩ := List.mem_map.mp hat
          exact Or.inr ⟨p, hp, hpe⟩
    · obtain ⟨-, hub, hat⟩ :=
        foldl_max_spec ((vars1.zip vars2).map (fun p => jsDivergence p.1 p.2)) esZero.maxJSDiverge
      constructor
      · intro p hp
        rw [show ({ (vars1.zip vars2).foldl esAccum esZero with
              meanMeanAbsError := _, meanMaxAbsError := _,
              meanHellinger := _, meanJSDiverge := _ } : ErrorSuite).maxJSDiverge
            = ((vars1.zip vars2).foldl esAccum esZero).maxJSDiverge from rfl, f8]
        exact hub _ (List.mem_map_of_mem _ hp)
      · rw [show ({ (vars1.zip vars2).foldl esAccum esZero with
              meanMeanAbsError := _, meanMaxAbsError := _,
              meanHellinger := _, meanJSDiverge := _ } : ErrorSuite).maxJSDiverge
            = ((vars1.zip vars2).foldl esAccum esZero).maxJSDiverge from rfl, f8]
        rcases hat with hat | hat
        · exact Or.inl hat
        · obtain ⟨p, hp, hpe⟩ := List.mem_map.mp hat
          exact Or.inr ⟨p, hp, hpe⟩
  · intro hbad
    rw [newErrorSuite, if_neg (by simp)]
    rcases hbad with hbad | hbad
    · have : ¬ ((vars1.zip vars2).all cardsMatch = true) := by
        intro hcon
        exact hbad fun p hp => by
          have := List.all_eq_true.mp hcon p hp
          simpa [cardsMatch] using this
      rw [if_pos (by simpa using this)]
      exact ⟨_, rfl⟩
    · have hc0 : (vars1.zip vars2).countP bothUnfixed = 0 := by
        by_contra hcon
        exact hbad (List.countP_pos.mp (Nat.pos_of_ne_zero hcon))
      by_cases hcards : (vars1.zip vars2).all cardsMatch = true
      · rw [if_neg (by simp [hcards]), if_pos (by omega)]
        exact ⟨_, rfl⟩
      · rw [if_pos (by simpa using hcards)]
        exact ⟨_, rfl⟩

/-- A variable fixed to value 0 with point marginal `[1,0]`. -/
noncomputable def c4A1 : Variable :=
  { id := 0, name := "A", card := 2, fixedVal := 0, marginal := [1, 0],
    state := fun _ => 0, collapsed := false }

/-- A variable fixed to value 0 with point marginal `[0,1]`. -/
noncomputable def c4A2 : Variable :=
  { id := 0, name := "A", card := 2, fixedVal := 0, marginal := [0, 1],
    state := fun _ => 0, collapsed := false }

/-- An un-fixed variable with marginal `[1,0]`. -/
noncomputable def c4B1 : Variable :=
  { id := 1, name := "B", card := 2, fixedVal := -1, marginal := [1, 0],
    state := fun _ => 0, collapsed := false }

/-- Another un-fixed variable with the same marginal `[1,0]`. -/
noncomputable def c4B2 : Variable :=
  { id := 1, name := "B", card := 2, fixedVal := -1, marginal := [1, 0],
    state := fun _ => 0, collapsed := false }

theorem maxAbsDiff_c4A : maxAbsDiff c4A1 c4A2 = 1 := by
  rw [maxAbsDiff]
  norm_num [c4A1, c4A2, List.range_succ]

theorem maxAbsDiff_c4B : maxAbsDiff c4B1 c4B2 = 0 := by
  rw [maxAbsDiff]
  norm_num [c4B1, c4B2, List.range_succ]

/-- Counterexample to C4 as stated: lists `[A,B]` where position A is fixed
on both sides with `MaxAbsDiff = 1` and position B is the only un-fixed
position with `MaxAbsDiff = 0`.  `NewErrorSuite` succeeds and reports
`MaxMaxAbsError = 1` and `MeanMaxAbsError = 1`, but the maximum (and mean)
over exactly the un-fixed positions is `0`: fixed positions are not excluded
from the accumulation loop. -/
theorem claim_C4_cex :
    ∃ es, newErrorSuite [c4A1, c4B1] [c4A2, c4B2] = .ok es ∧
      es.maxMaxAbsError = 1 ∧ es.meanMaxAbsError = 1 ∧
      (∀ p ∈ ([c4A1, c4B1].zip [c4A2, c4B2]).filter bothUnfixed,
        maxAbsDiff p.1 p.2 = 0) ∧
      (1 : ℝ) ≠ 0 := by
  have hzip : [c4A1, c4B1].zip [c4A2, c4B2] = [(c4A1, c4A2), (c4B1, c4B2)] := rfl
  have hcnt : ([c4A1, c4B1].zip [c4A2, c4B2]).countP bothUnfixed = 1 := by
    rw [hzip]
    simp [List.countP, List.countP.go, bothUnfixed, c4A1, c4A2, c4B1, c4B2]
  obtain ⟨f1, f2, f3, f4, f5, f6, f7, f8⟩ :=
    foldl_esAccum_fields ([c4A1, c4B1].zip [c4A2, c4B2]) esZero
  rw [newErrorSuite, if_neg (by simp), if_neg (by decide), if_neg (by rw [hcnt]; omega)]
  refine ⟨_, rfl, ?_, ?_, ?_, by norm_num⟩
  · show (([c4A1, c4B1].zip [c4A2, c4B2]).foldl esAccum esZero).maxMaxAbsError = 1
    rw [f6, hzip]
    simp only [List.map_cons, List.map_nil, List.foldl_cons, List.foldl_nil]
    rw [maxAbsDiff_c4A, maxAbsDiff_c4B]
    rw [show esZero.maxMaxAbsError = 0 from rfl]
    rw [show (1 : ℝ) ⊔ 0 = 1 from max_eq_left (by norm_num)]
    rw [show (0 : ℝ) ⊔ 1 = 1 from max_eq_right (by norm_num)]
  · show (([c4A1, c4B1].zip [c4A2, c4B2]).foldl esAccum esZero).meanMaxAbsError
        / (([c4A1, c4B1].zip [c4A2, c4B2]).countP bothUnfixed : ℝ) = 1
    rw [f2, hcnt, hzip]
    simp only [List.map_cons, List.map_nil, List.sum_cons, List.sum_nil]
    rw [maxAbsDiff_c4A, maxAbsDiff_c4B]
    rw [show esZero.meanMaxAbsError = 0 from rfl]
    norm_num
  · intro p hp
    rw [hzip] at hp
    have hfA : bothUnfixed (c4A1, c4A2) = false := by
      simp [bothUnfixed, c4A1, c4A2]
    have hfB : bothUnfixed (c4B1, c4B2) = true := by
      simp [bothUnfixed, c4B1, c4B2]
    rw [List.filter_cons, List.filter_cons, List.filter_nil, hfA, hfB] at hp
    simp only [Bool.false_eq_true, if_false, if_true] at hp
    have hpe : p = (c4B1, c4B2) := by simpa using hp
    rw [hpe]
    exact maxAbsDiff_c4B

/-- Witness for C4 (amended): on the single un-fixed pair `(B,B)` with equal
cardinalities, `NewErrorSuite` succeeds. -/
theorem claim_C4_wit :
    ∃ es, newErrorSuite [c4B1] [c4B2] = .ok es := by
  obtain ⟨es, hok, -⟩ := (claim_C4 [c4B1] [c4B2] rfl).1
    (fun p hp => by
      have hpe : p = (c4B1, c4B2) := by simpa using hp
      rw [hpe]
      rfl)
    ⟨(c4B1, c4B2), by simp, by decide⟩
  exact ⟨es, hok⟩

/-! ## Factors (`Function`, model/function.go = part_022) -/

/-- `Function` from model/function.go (part_022): a named dense table over
an ordered tuple of variables, with the log-space flag. -/
structure Function where
  name : String
  vars : List Variable
  table : List ℝ
  isLog : Bool

/-- The loop body of `calcIndex`: walks the value/variable pairs from least
significant (the END of the tuple) to most significant, accumulating
`location += digit * val; digit *= card` and rejecting out-of-range values. -/
def calcIndexLoop : List (Int × Variable) → Int → Int → Except String Int
  | [], _, location => .ok location
  | (val, v) :: rest, digit, location =>
      if val < 0 ∨ val ≥ (v.card : Int) then .error "Value invalid for cardinality"
      else calcIndexLoop rest (digit * (v.card : Int)) (location + digit * val)

/-- `Function.calcIndex` from model/function.go (part_022): arity check, then
the least-significant-first accumulation (the Go loop runs `i` from
`len(values)-1` down to `0`, modelled by reversing the zipped pairs). -/
def Function.calcIndex (f : Function) (values : List Int) : Except String Int :=
  if values.length ≠ f.vars.length then .error "Value vector does not match variables"
  else calcIndexLoop ((values.zip f.vars).reverse) 1 0

/-- `Function.Eval` from model/function.go (part_022): computes the table
index and returns the stored entry, with the defensive bounds check on the
index. -/
noncomputable def Function.eval (f : Function) (values : List Int) : Except String ℝ :=
  match f.calcIndex values with
  | .error e => .error e
  | .ok i =>
      if i < 0 ∨ i ≥ (f.table.length : Int) then .error "Could not find table entry"
      else .ok (f.table.getD i.toNat 0)

/-- The most-significant-first mixed-radix index of the specification:
`index = sum over i of t[i] * prod over j > i of card[j]`. -/
def msfIndex : List (Int × Variable) → Int
  | [] => 0
  | (val, _) :: rest => val * ((rest.map (fun p => (p.2.card : Int))).prod) + msfIndex rest

/-- The least-significant-first Horner form computed by the Go loop. -/
def lsfHorner : List (Int × Variable) → Int
  | [] => 0
  | (val, v) :: rest => val + (v.card : Int) * lsfHorner rest

theorem calcIndexLoop_ok (qs : List (Int × Variable)) (digit location : Int)
    (h : ∀ p ∈ qs, 0 ≤ p.1 ∧ p.1 < (p.2.card : Int)) :
    calcIndexLoop qs digit location = .ok (location + digit * lsfHorner qs) := by
  induction qs generalizing digit location with
  | nil => simp [calcIndexLoop, lsfHorner]
  | cons q rest ih =>
      obtain ⟨val, v⟩ := q
      obtain ⟨h0, h1⟩ := h (val, v) (by simp)
      have h0b : (0 : Int) ≤ val := h0
      have h1b : val < (v.card : Int) := h1
      rw [calcIndexLoop, if_neg (by omega), ih _ _ (fun p hp => h p (by simp [hp]))]
      rw [show lsfHorner ((val, v) :: rest) = val + (v.card : Int) * lsfHorner rest from rfl]
      congr 1
      ring

theorem calcIndexLoop_err (qs : List (Int × Variable)) (digit location : Int)
    (h : ∃ p ∈ qs, p.1 < 0 ∨ (p.2.card : Int) ≤ p.1) :
    ∃ e, calcIndexLoop qs digit location = .error e := by
  induction qs generalizing digit location with
  | nil => simp at h
  | cons q rest ih =>
      obtain ⟨val, v⟩ := q
      by_cases hq : val < 0 ∨ val ≥ (v.card : Int)
      · exact ⟨_, by rw [calcIndexLoop, if_pos hq]⟩
      · obtain ⟨p, hp, hpbad⟩ := h
        rcases List.mem_cons.mp hp with rfl | hp2
        · have hpbad2 : val < 0 ∨ (v.card : Int) ≤ val := hpbad
          exact absurd (by omega : val < 0 ∨ val ≥ (v.card : Int)) hq
        · obtain ⟨e, he⟩ := ih (digit * (v.card : Int)) (location + digit * val) ⟨p, hp2, hpbad⟩
          exact ⟨e, by rw [calcIndexLoop, if_neg hq, he]⟩

theorem lsfHorner_append (xs ys : List (Int × Variable)) :
    lsfHorner (xs ++ ys)
      = lsfHorner xs + ((xs.map (fun p => (p.2.card : Int))).prod) * lsfHorner ys := by
  induction xs with
  | nil => simp [lsfHorner]
  | cons x xs ih =>
      obtain ⟨val, v⟩ := x
      rw [List.cons_append]
      rw [show lsfHorner ((val, v) :: (xs ++ ys)) = val + (v.card : Int) * lsfHorner (xs ++ ys) from rfl]
      rw [show lsfHorner ((val, v) :: xs) = val + (v.card : Int) * lsfHorner xs from rfl]
      rw [ih, List.map_cons, List.prod_cons]
      ring

theorem msfIndex_eq_lsfHorner_reverse (ps : List (Int × Variable)) :
    msfIndex ps = lsfHorner ps.reverse := by
  induction ps with
  | nil => rfl
  | cons p rest ih =>
      obtain ⟨val, v⟩ := p
      rw [show msfIndex ((val, v) :: rest)
            = val * ((rest.map (fun p => (p.2.card : Int))).prod) + msfIndex rest from rfl]
      rw [List.reverse_cons, lsfHorner_append, ih]
      rw [show lsfHorner [(val, v)] = val + (v.card : Int) * 0 from rfl]
      rw [List.map_reverse, List.prod_reverse]
      ring

theorem lsfHorner_bounds (qs : List (Int × Variable))
    (h : ∀ p ∈ qs, 0 ≤ p.1 ∧ p.1 < (p.2.card : Int)) :
    0 ≤ lsfHorner qs ∧ lsfHorner qs < (qs.map (fun p => (p.2.card : Int))).prod := by
  induction qs with
  | nil => simp [lsfHorner]
  | cons q rest ih =>
      obtain ⟨val, v⟩ := q
      obtain ⟨h0, h1⟩ := h (val, v) (by simp)
      have h0b : (0 : Int) ≤ val := h0
      have h1b : val < (v.card : Int) := h1
      obtain ⟨ih0, ih1⟩ := ih (fun p hp => h p (by simp [hp]))
      have hc1 : (1 : Int) ≤ (v.card : Int) := by omega
      constructor
      · show 0 ≤ val + (v.card : Int) * lsfHorner rest
        have hnn : 0 ≤ (v.card : Int) * lsfHorner rest := mul_nonneg (by omega) ih0
        omega
      · show val + (v.card : Int) * lsfHorner rest
            < (((val, v) :: rest).map (fun p => (p.2.card : Int))).prod
        rw [List.map_cons, List.prod_cons]
        calc val + (v.card : Int) * lsfHorner rest
            < (v.card : Int) + (v.card : Int) * lsfHorner rest := by omega
          _ = (v.card : Int) * (1 + lsfHorner rest) := by ring
          _ ≤ (v.card : Int) * (rest.map (fun p => (p.2.card : Int))).prod :=
              mul_le_mul_of_nonneg_left (by omega) (by omega)

/-- C9: for a factor whose table length is the product of its variables'
cardinalities, `Eval` on an arity-correct, in-range tuple returns the table
entry at the most-significant-first mixed-radix index
`sum of t[i] * prod over j > i of card[j]`, and `Eval` errors exactly when
the tuple has the wrong arity or some value is out of its variable's range. -/
theorem claim_C9 (f : Function) (t : List Int)
    (hwf : (f.table.length : Int) = (f.vars.map (fun v => (v.card : Int))).prod) :
    ((t.length = f.vars.length ∧ ∀ p ∈ t.zip f.vars, 0 ≤ p.1 ∧ p.1 < (p.2.card : Int)) →
      f.eval t = .ok (f.table.getD (msfIndex (t.zip f.vars)).toNat 0)) ∧
    ((∃ e, f.eval t = .error e) ↔
      (t.length ≠ f.vars.length ∨ ∃ p ∈ t.zip f.vars, p.1 < 0 ∨ (p.2.card : Int) ≤ p.1)) := by
  have hok : ∀ (hlen : t.length = f.vars.length)
      (hin : ∀ p ∈ t.zip f.vars, 0 ≤ p.1 ∧ p.1 < (p.2.card : Int)),
      f.eval t = .ok (f.table.getD (msfIndex (t.zip f.vars)).toNat 0) := by
    intro hlen hin
    have hrev : ∀ p ∈ (t.zip f.vars).reverse, 0 ≤ p.1 ∧ p.1 < (p.2.card : Int) :=
      fun p hp => hin p (List.mem_reverse.mp hp)
    have hmsf : msfIndex (t.zip f.vars) = lsfHorner ((t.zip f.vars).reverse) :=
      msfIndex_eq_lsfHorner_reverse _
    have hcalc : f.calcIndex t = .ok (msfIndex (t.zip f.vars)) := by
      rw [Function.calcIndex, if_neg (by omega), calcIndexLoop_ok _ 1 0 hrev, hmsf]
      congr 1
      ring
    have hzsnd : (t.zip f.vars).map Prod.snd = f.vars := by
      apply List.map_snd_zip
      omega
    have hprod : (((t.zip f.vars).reverse).map (fun p => (p.2.card : Int))).prod
        = (f.vars.map (fun v => (v.card : Int))).prod := by
      rw [List.map_reverse, List.prod_reverse]
      rw [show ((t.zip f.vars).map (fun p => (p.2.card : Int)))
            = ((t.zip f.vars).map Prod.snd).map (fun v => (v.card : Int)) by
          rw [List.map_map]
          rfl]
      rw [hzsnd]
    obtain ⟨hlo, hhi⟩ := lsfHorner_bounds ((t.zip f.vars).reverse) hrev
    rw [hprod] at hhi
    rw [Function.eval, hcalc]
    show (if msfIndex (t.zip f.vars) < 0 ∨ msfIndex (t.zip f.vars) ≥ (f.table.length : Int)
        then (Except.error "Could not find table entry" : Except String ℝ)
        else Except.ok (f.table.getD (msfIndex (t.zip f.vars)).toNat 0)) = _
    rw [if_neg (by rw [hmsf, hwf]; omega)]
  refine ⟨fun h => hok h.1 h.2, ?_, ?_⟩
  · -- error implies wrong arity or out-of-range (contrapositive via hok)
    intro ⟨e, he⟩
    by_contra hcon
    push_neg at hcon
    obtain ⟨hlen, hin⟩ := hcon
    rw [hok hlen (fun p hp => ⟨(hin p hp).1, by have := (hin p hp).2; omega⟩)] at he
    cases he
  · intro hcond
    by_cases hlen : t.length = f.vars.length
    · rcases hcond with hc | hc
      · exact absurd hlen hc
      · have hrev : ∃ p ∈ (t.zip f.vars).reverse, p.1 < 0 ∨ (p.2.card : Int) ≤ p.1 := by
          obtain ⟨p, hp, hpb⟩ := hc
          exact ⟨p, List.mem_reverse.mpr hp, hpb⟩
        obtain ⟨e, he⟩ := calcIndexLoop_err ((t.zip f.vars).reverse) 1 0 hrev
        refine ⟨e, ?_⟩
        rw [Function.eval, Function.calcIndex, if_neg (by omega), he]
    · refine ⟨"Value vector does not match variables", ?_⟩
      rw [Function.eval, Function.calcIndex, if_pos (by omega)]

/-- A cardinality-2 variable for the C9 witness factor. -/
noncomputable def c9X : Variable :=
  { id := 0, name := "X", card := 2, fixedVal := -1, marginal := [1, 0],
    state := fun _ => 0, collapsed := false }

/-- A cardinality-3 variable for the C9 witness factor. -/
noncomputable def c9Y : Variable :=
  { id := 1, name := "Y", card := 3, fixedVal := -1, marginal := [1, 0, 0],
    state := fun _ => 0, collapsed := false }

/-- The C9 witness factor: a 2x3 table in most-significant-first order. -/
noncomputable def c9F : Function :=
  { name := "f", vars := [c9X, c9Y], table := [10, 11, 12, 13, 14, 15], isLog := false }

/-- Witness for C9: evaluating the 2x3 factor at the tuple `[1, 2]` returns
the entry at index `1*3 + 2 = 5`, namely `15`. -/
theorem claim_C9_wit : c9F.eval [1, 2] = .ok 15 := by
  have h := (claim_C9 c9F [1, 2] (by
    rw [show c9F.vars = [c9X, c9Y] from rfl]
    rw [show (c9F.table.length : Int) = 6 from rfl]
    rw [List.map_cons, List.map_cons, List.map_nil, List.prod_cons, List.prod_cons,
        List.prod_nil]
    rw [show ((c9X.card : Int)) = 2 from rfl, show ((c9Y.card : Int)) = 3 from rfl]
    norm_num)).1
  rw [h ⟨rfl, by
    intro p hp
    rcases List.mem_cons.mp hp with rfl | hp2
    · exact ⟨by norm_num, by rw [show (((1:Int), c9X).2.card : Int) = 2 from rfl]; norm_num⟩
    · have hpe : p = (2, c9Y) := by simpa using hp2
      rw [hpe]
      exact ⟨by norm_num, by rw [show (((2:Int), c9Y).2.card : Int) = 3 from rfl]; norm_num⟩⟩]
  rw [show msfIndex ([(1:Int), 2].zip c9F.vars) = 5 by decide]
  rfl

/-! ## Model (`model/model.go` = part_032) and the simple Gibbs sampler
(`sampler/gibbs-simple.go`) -/

/-- `Model` from model/model.go (part_032). -/
structure Model where
  type : String
  name : String
  vars : List Variable
  funcs : List Function

/-- The default variable used for modelled out-of-range reads (never
relevant under the in-range hypotheses of the theorems below). -/
noncomputable def defaultVar : Variable :=
  { id := 0, name := "", card := 0, fixedVal := -1, marginal := [],
    state := fun _ => 0, collapsed := false }

noncomputable instance : Inhabited Variable := ⟨defaultVar⟩

/-- The `varFuncs` bookkeeping of `GibbsSimple` (built in `NewGibbsSimple`
and rebuilt by `FunctionsChanged`): for each factor and each of its
variables with the given ID, one entry, in factor order. -/
def varFuncs (funcs : List Function) (vid : Nat) : List Function :=
  funcs.bind (fun f => (f.vars.filter (fun v => v.id == vid)).map (fun _ => f))

/-- `GibbsSimple` state: the model it samples and the working last-sample
vector.  The `varFuncs` map is derived from `pgm.funcs` (the invariant that
`NewGibbsSimple`/`FunctionsChanged` maintain); the variable selector and the
weighted sampler are interface fields, passed to `sampleVar` explicitly. -/
structure GibbsSimple where
  pgm : Model
  last : List Int

/-- Increment the `"Selections"` state counter of a variable
(`sampleVar.State["Selections"] += 1.0`). -/
noncomputable def incSelections (v : Variable) : Variable :=
  { v with state := Function.update v.state "Selections" (v.state "Selections" + 1) }

/-- The sampler state after the `Selections` bump at the top of
`SampleVar` (performed BEFORE the fixed-value check). -/
noncomputable def selBump (g : GibbsSimple) (varIdx : Nat) : GibbsSimple :=
  { g with pgm := { g.pgm with
      vars := g.pgm.vars.set varIdx (incSelections (g.pgm.vars.getD varIdx defaultVar)) } }

/-- The inner value loop of `SampleVar`: for each value `u` of the sampled
variable, overwrite its slot in the call tuple and evaluate the factor,
collecting the per-value results (any `Eval` error aborts). -/
noncomputable def evalAllVals (f : Function) (callVals : List Int) (callIdx : Nat) :
    List Nat → Except String (List ℝ)
  | [] => .ok []
  | u :: us =>
      match f.eval (callVals.set callIdx (u : Int)) with
      | .error e => .error e
      | .ok r =>
          match evalAllVals f callVals callIdx us with
          | .error e => .error e
          | .ok rs => .ok (r :: rs)

/-- The per-factor weight accumulation of `SampleVar`: build the call tuple
from `last`, locate the sampled variable's slot (the Go loop keeps the LAST
matching position), and add `f.Eval` over all of its values into the
weights. -/
noncomputable def accumWeights (last : List Int) (vid card : Nat) :
    List Function → List ℝ → Except String (List ℝ)
  | [], w => .ok w
  | f :: fs, w =>
      let callVals := f.vars.map (fun u => last.getD u.id 0)
      let callIdx : Int :=
        f.vars.enum.foldl (fun acc p => if p.2.id = vid then (p.1 : Int) else acc) (-1)
      if callIdx < 0 then .error "Var not in function var list"
      else
        match evalAllVals f callVals callIdx.toNat (List.range card) with
        | .error e => .error e
        | .ok rs => accumWeights last vid card fs (List.zipWith (· + ·) w rs)

/-- The sequential minimum-mass floor of `SampleVar` step 4: for each weight
with relative mass below `1e-6`, add `totWeights * 1e-6` to the weight AND
to the running total (the total grows as the loop progresses); fail if the
delta underflows. -/
noncomputable def floorLoop : List ℝ → ℝ → Except String (List ℝ × ℝ)
  | [], tot => .ok ([], tot)
  | x :: rest, tot =>
      if x / tot < 1e-6 then
        let delta := tot * 1e-6
        if delta ≤ 1e-12 then .error "Logic error"
        else
          match floorLoop rest (tot + delta) with
          | .error e => .error e
          | .ok (rest2, tot2) => .ok ((x + delta) :: rest2, tot2)
      else
        match floorLoop rest tot with
        | .error e => .error e
        | .ok (rest2, tot2) => .ok (x :: rest2, tot2)

/-- Steps 2-4 of `SampleVar` on the accumulated log weights: the
stabilising shift when `min < -8`, element-wise exponentiation with the
running total, and the minimum-mass floor. -/
noncomputable def stabilizeWeights (w : List ℝ) : Except String (List ℝ) :=
  let minWeight := (w.drop 1).foldl (fun m x => if x < m then x else m) (w.getD 0 0)
  let w2 := if minWeight < -8 then w.map (fun x => x - (minWeight - 1.5)) else w
  let w3 := w2.map Real.exp
  let tot := w3.sum
  match floorLoop w3 tot with
  | .error e => .error e
  | .ok (w4, _) => .ok w4

/-- The weight pipeline of `SampleVar` after the fixed-value check:
log-space accumulation over the variable's factors, then stabilisation,
exponentiation and the minimum-mass floor; returns the weight vector handed
to the weighted draw. -/
noncomputable def sampleVarWeights (g : GibbsSimple) (varIdx : Nat) :
    Except String (List ℝ) :=
  let v := g.pgm.vars.getD varIdx defaultVar
  match accumWeights g.last v.id v.card (varFuncs g.pgm.funcs v.id)
      (List.replicate v.card 0) with
  | .error e => .error e
  | .ok w => stabilizeWeights w

/-- The final weighted draw of `SampleVar` and the update of `last` and the
caller's buffer; the `.error` arm is the source's `return -1, nil`
(the draw error is checked and then DISCARDED). -/
noncomputable def drawStep (g1 : GibbsSimple) (varIdx : Nat) (s : List Int) :
    Except String Int → GibbsSimple × List Int × Int × Option String
  | .error _ => (g1, s, -1, none)
  | .ok nextVal =>
      let last2 := g1.last.set varIdx nextVal
      let s2 := last2.take s.length ++ s.drop last2.length
      ({ g1 with last := last2 }, s2, (varIdx : Int), none)

/-- The continuation of `SampleVar` after the weight computation: a weight
error propagates (`return -1, err`), otherwise the weighted draw runs. -/
noncomputable def afterWeights (g1 : GibbsSimple)
    (weighted : Int → List ℝ → Except String Int) (varIdx : Nat) (s : List Int) :
    Except String (List ℝ) → GibbsSimple × List Int × Int × Option String
  | .error e => (g1, s, -1, some e)
  | .ok w4 => drawStep g1 varIdx s (weighted (w4.length : Int) w4)

/-- `GibbsSimple.SampleVar` from sampler/gibbs-simple.go.  Returns the
updated sampler state, the caller's sample buffer, the returned index and
the returned error (Go's `(int, error)` pair).  `weighted` is the
`WeightedSampler` interface field. -/
noncomputable def sampleVar (g : GibbsSimple)
    (weighted : Int → List ℝ → Except String Int) (varIdx : Nat) (s : List Int) :
    GibbsSimple × List Int × Int × Option String :=
  let v := g.pgm.vars.getD varIdx defaultVar
  let g1 : GibbsSimple :=
    { g with pgm := { g.pgm with vars := g.pgm.vars.set varIdx (incSelections v) } }
  if v.fixedVal ≥ 0 then
    (g1, s, -1, some "Selected sample variable which has FixedVal set")
  else
    afterWeights g1 weighted varIdx s (sampleVarWeights g1 varIdx)

/-- C10: calling `SampleVar` on a variable with `FixedVal >= 0` returns an
error, but the variable's `State["Selections"]` counter has already been
incremented, so sampler state is not left unchanged on this error path. -/
theorem claim_C10 (g : GibbsSimple) (weighted : Int → List ℝ → Except String Int)
    (varIdx : Nat) (s : List Int)
    (hlt : varIdx < g.pgm.vars.length)
    (hfix : 0 ≤ (g.pgm.vars.getD varIdx defaultVar).fixedVal) :
    (∃ msg, (sampleVar g weighted varIdx s).2.2.2 = some msg) ∧
    (sampleVar g weighted varIdx s).2.2.1 = -1 ∧
    (((sampleVar g weighted varIdx s).1.pgm.vars.getD varIdx defaultVar).state "Selections")
      = ((g.pgm.vars.getD varIdx defaultVar).state "Selections") + 1 := by
  have hR : sampleVar g weighted varIdx s
      = (selBump g varIdx, s, -1,
         some "Selected sample variable which has FixedVal set") := by
    simp only [sampleVar]
    rw [if_pos hfix]
    rfl
  rw [hR]
  refine ⟨⟨_, rfl⟩, rfl, ?_⟩
  show ((g.pgm.vars.set varIdx (incSelections (g.pgm.vars.getD varIdx defaultVar))).getD
          varIdx defaultVar).state "Selections" = _
  rw [List.getD_eq_getElem?_getD,
      List.getElem?_set_eq_of_lt _ hlt]
  show (incSelections (g.pgm.vars.getD varIdx defaultVar)).state "Selections" = _
  show Function.update (g.pgm.vars.getD varIdx defaultVar).state "Selections"
      ((g.pgm.vars.getD varIdx defaultVar).state "Selections" + 1) "Selections" = _
  exact Function.update_same _ _ _

theorem sampleVarWeights_incSelections (g : GibbsSimple) (varIdx : Nat)
    (hlt : varIdx < g.pgm.vars.length) :
    sampleVarWeights (selBump g varIdx) varIdx = sampleVarWeights g varIdx := by
  have hget : ((selBump g varIdx).pgm.vars).getD varIdx defaultVar
      = incSelections (g.pgm.vars.getD varIdx defaultVar) := by
    show (g.pgm.vars.set varIdx
        (incSelections (g.pgm.vars.getD varIdx defaultVar))).getD varIdx defaultVar = _
    rw [List.getD_eq_getElem?_getD, List.getElem?_set_eq_of_lt _ hlt]
    rfl
  simp only [sampleVarWeights, hget]
  rfl

/-- C6 (code bug): when the final weighted categorical draw fails,
`SampleVar` returns `(-1, nil)` - the error from the draw is checked and
then DISCARDED (`return -1, nil` instead of `return -1, err`), so no error
is propagated to the caller, contradicting the claim (and the propagation
contract used everywhere else in the function). -/
theorem claim_C6 (g : GibbsSimple) (weighted : Int → List ℝ → Except String Int)
    (varIdx : Nat) (s : List Int)
    (hlt : varIdx < g.pgm.vars.length)
    (hfree : (g.pgm.vars.getD varIdx defaultVar).fixedVal < 0)
    (w4 : List ℝ) (hw : sampleVarWeights g varIdx = .ok w4)
    (e : String) (hdraw : weighted (w4.length : Int) w4 = .error e) :
    (sampleVar g weighted varIdx s).2.2.1 = -1 ∧
    (sampleVar g weighted varIdx s).2.2.2 = none := by
  have hR : sampleVar g weighted varIdx s = (selBump g varIdx, s, -1, none) := by
    simp only [sampleVar]
    rw [if_neg (by omega)]
    have hrw : sampleVarWeights
        ⟨⟨g.pgm.type, g.pgm.name,
          g.pgm.vars.set varIdx (incSelections (g.pgm.vars.getD varIdx defaultVar)),
          g.pgm.funcs⟩, g.last⟩ varIdx = Except.ok w4 :=
      (sampleVarWeights_incSelections g varIdx hlt).trans hw
    rw [hrw]
    simp only [afterWeights]
    rw [hdraw]
    simp only [drawStep]
    rfl
  rw [hR]
  exact ⟨rfl, rfl⟩

/-- A fixed (evidence) variable for the C10 witness. -/
noncomputable def c10V : Variable :=
  { id := 0, name := "A", card := 2, fixedVal := 0, marginal := [1, 0],
    state := fun _ => 0, collapsed := false }

/-- A one-variable sampler state whose only variable is fixed. -/
noncomputable def c10G : GibbsSimple :=
  { pgm := { type := "MARKOV", name := "m", vars := [c10V],
             funcs := [{ name := "f0", vars := [c10V], table := [0, 0], isLog := true }] },
    last := [0] }

/-- Witness for C10: sampling the fixed variable errors but bumps its
`Selections` counter. -/
theorem claim_C10_wit :
    (∃ msg, (sampleVar c10G (fun _ _ => .ok 0) 0 [0]).2.2.2 = some msg) ∧
    (sampleVar c10G (fun _ _ => .ok 0) 0 [0]).2.2.1 = -1 ∧
    (((sampleVar c10G (fun _ _ => .ok 0) 0 [0]).1.pgm.vars.getD 0 defaultVar).state
        "Selections")
      = ((c10G.pgm.vars.getD 0 defaultVar).state "Selections") + 1 :=
  claim_C10 c10G (fun _ _ => .ok 0) 0 [0] (by decide) (by decide)

/-- A free cardinality-1 variable for the C6 witness. -/
noncomputable def c6V : Variable :=
  { id := 0, name := "A", card := 1, fixedVal := -1, marginal := [1],
    state := fun _ => 0, collapsed := false }

/-- The single log-space factor over that variable. -/
noncomputable def c6F : Function :=
  { name := "f0", vars := [c6V], table := [0], isLog := true }

/-- The C6 witness sampler state. -/
noncomputable def c6G : GibbsSimple :=
  { pgm := { type := "MARKOV", name := "m", vars := [c6V], funcs := [c6F] },
    last := [0] }

theorem stabilizeWeights_single : stabilizeWeights [(0 : ℝ) + 0] = .ok [1] := by
  rw [show ((0 : ℝ) + 0) = 0 by norm_num]
  simp only [stabilizeWeights]
  rw [show (List.drop 1 [(0 : ℝ)]) = [] from rfl, List.foldl_nil,
      show ([(0 : ℝ)].getD 0 0) = 0 from rfl]
  rw [if_neg (by norm_num)]
  rw [show (List.map Real.exp [(0 : ℝ)]) = [1] by simp [Real.exp_zero]]
  rw [show ([(1 : ℝ)].sum) = 1 by norm_num]
  rw [floorLoop, if_neg (by norm_num), floorLoop]

theorem c6_weights : sampleVarWeights c6G 0 = .ok [1] := by
  have hv : c6G.pgm.vars.getD 0 defaultVar = c6V := rfl
  have hvf : varFuncs c6G.pgm.funcs c6V.id = [c6F] := rfl
  have heval : c6F.eval ((c6F.vars.map (fun u => c6G.last.getD u.id 0)).set 0 ((0 : Nat) : Int))
      = .ok 0 := by
    rw [show (c6F.vars.map (fun u => c6G.last.getD u.id 0)).set 0 ((0 : Nat) : Int)
          = [(0 : Int)] from rfl]
    rw [Function.eval, Function.calcIndex, if_neg (by decide)]
    rw [show (([(0 : Int)].zip c6F.vars).reverse) = [((0 : Int), c6V)] from rfl]
    rw [calcIndexLoop, if_neg (by decide), calcIndexLoop]
    show (if (0 : Int) + 1 * 0 < 0 ∨ (0 : Int) + 1 * 0 ≥ (c6F.table.length : Int)
        then (Except.error "Could not find table entry" : Except String ℝ)
        else Except.ok (c6F.table.getD ((0 : Int) + 1 * 0).toNat 0)) = Except.ok 0
    rw [if_neg (by norm_num [c6F])]
    norm_num
    rfl
  have haccum : accumWeights c6G.last c6V.id c6V.card (varFuncs c6G.pgm.funcs c6V.id)
      (List.replicate c6V.card 0) = .ok [(0 : ℝ) + 0] := by
    rw [hvf]
    rw [show c6V.card = 1 from rfl]
    simp only [accumWeights]
    rw [if_neg (by decide)]
    rw [show List.range 1 = [0] from rfl]
    rw [show ((c6F.vars.enum.foldl
          (fun acc p => if p.2.id = c6V.id then (p.1 : Int) else acc) (-1) : Int)).toNat
        = 0 from rfl]
    simp only [evalAllVals]
    rw [heval]
    rfl
  rw [sampleVarWeights]
  simp only [hv]
  rw [haccum]
  exact stabilizeWeights_single

/-- Witness for C6: with a one-variable model and a weighted sampler that
always fails, the draw fails yet `SampleVar` returns `(-1, nil)`. -/
theorem claim_C6_wit :
    (sampleVar c6G (fun _ _ => .error "draw failed") 0 [0]).2.2.1 = -1 ∧
    (sampleVar c6G (fun _ _ => .error "draw failed") 0 [0]).2.2.2 = none :=
  claim_C6 c6G (fun _ _ => .error "draw failed") 0 [0] (by decide) (by decide)
    [1] c6_weights "draw failed" rfl

/-! ## Chains and `MergeChains` (`sampler/chain.go`) -/

/-- `Chain` from sampler/chain.go.  The `Sampler` interface field is not
needed by `MergeChains` and is omitted from the embedding. -/
structure Chain where
  target : Model
  convergenceWindow : Nat
  chainHistory : List CircularInt
  totalSampleCount : Nat
  lastSample : List Int

/-- Whether any chain has the variable at `varIdx` collapsed (the
`collapsedVars` map of `MergeChains`). -/
noncomputable def collapsedAt (chains : List Chain) (varIdx : Nat) : Bool :=
  chains.any (fun ch => (ch.target.vars.getD varIdx defaultVar).collapsed)

/-- The first chain-variable found collapsed at `varIdx` (the `found`
pointer of the first loop of `MergeChains`). -/
noncomputable def foundVar (chains : List Chain) (varIdx : Nat) : Option Variable :=
  (chains.find? (fun ch => (ch.target.vars.getD varIdx defaultVar).collapsed)).map
    (fun ch => ch.target.vars.getD varIdx defaultVar)

/-- The first loop of `MergeChains`: clone the first collapsed variable
found at each position, otherwise clone the first chain's variable. -/
noncomputable def mergeInit (chains : List Chain) (ch0 : Chain) (varLen : Nat) :
    List Variable :=
  (List.range varLen).map (fun varIdx =>
    match foundVar chains varIdx with
    | some v => v.clone
    | none => (ch0.target.vars.getD varIdx defaultVar).clone)

/-- One marginal accumulation of the second loop of `MergeChains`:
`vars[varIdx].Marginal[marIdx] += val` over the source marginal (an
out-of-range write would panic in Go; the embedding truncates, and the
theorems below only concern matching lengths). -/
noncomputable def addMarginal (dst src : List ℝ) : List ℝ :=
  (List.zipWith (· + ·) dst src) ++ dst.drop src.length

/-- Replace a variable's marginal by the accumulated one. -/
noncomputable def withAddedMarginal (dst : Variable) (src : List ℝ) : Variable :=
  { dst with marginal := addMarginal dst.marginal src }

/-- The second loop of `MergeChains`: for each later chain, check the
variable count, then add its marginals into all non-collapsed positions. -/
noncomputable def mergeAccum (chains : List Chain) (varLen : Nat) :
    List Chain → List Variable → Except String (List Variable)
  | [], vars => .ok vars
  | ch :: rest, vars =>
      if ch.target.vars.length ≠ varLen then .error "Cannot merge chain var counts"
      else mergeAccum chains varLen rest ((List.range varLen).map (fun varIdx =>
        let dst := vars.getD varIdx defaultVar
        if collapsedAt chains varIdx then dst
        else withAddedMarginal dst ((ch.target.vars.getD varIdx defaultVar).marginal)))

/-- `MergeChains` from sampler/chain.go. -/
noncomputable def mergeChains : List Chain → Except String (List Variable)
  | [] => .error "Can not merge 0 chains"
  | [ch] => .ok ch.target.vars
  | ch0 :: ch1 :: rest =>
      mergeAccum (ch0 :: ch1 :: rest) ch0.target.vars.length (ch1 :: rest)
        (mergeInit (ch0 :: ch1 :: rest) ch0 ch0.target.vars.length)

/-- A collapsed variable with cached marginal `[1,0]`. -/
noncomputable def c8VA : Variable :=
  { id := 0, name := "A", card := 2, fixedVal := -1, marginal := [1, 0],
    state := fun _ => 0, collapsed := true }

/-- A collapsed variable (same position) with cached marginal `[0,1]`. -/
noncomputable def c8VB : Variable :=
  { id := 0, name := "A", card := 2, fixedVal := -1, marginal := [0, 1],
    state := fun _ => 0, collapsed := true }

/-- A chain whose single variable is `c8VA`. -/
noncomputable def c8ChA : Chain :=
  { target := { type := "MARKOV", name := "m", vars := [c8VA], funcs := [] },
    convergenceWindow := 10, chainHistory := [], totalSampleCount := 0,
    lastSample := [0] }

/-- A second chain whose single variable is also `c8VA` (so its cached
collapsed marginal agrees with the one in the chain above). -/
noncomputable def c8ChC : Chain :=
  { target := { type := "MARKOV", name := "m2", vars := [c8VA], funcs := [] },
    convergenceWindow := 10, chainHistory := [], totalSampleCount := 7,
    lastSample := [1] }

/-- A chain whose single variable is `c8VB`. -/
noncomputable def c8ChB : Chain :=
  { target := { type := "MARKOV", name := "m", vars := [c8VB], funcs := [] },
    convergenceWindow := 10, chainHistory := [], totalSampleCount := 0,
    lastSample := [0] }

/-- Counterexample to C8 as stated: two chains both have the same variable
collapsed but with different cached marginals; `MergeChains` clones the
FIRST collapsed one found in chain order, so permuting the chains changes
the merged marginal vector from `[1,0]` to `[0,1]`. -/
theorem claim_C8_cex :
    (∃ vs, mergeChains [c8ChA, c8ChB] = .ok vs ∧
      vs.map (fun v => v.marginal) = [[1, 0]]) ∧
    (∃ vs, mergeChains [c8ChB, c8ChA] = .ok vs ∧
      vs.map (fun v => v.marginal) = [[0, 1]]) ∧
    List.Perm [c8ChA, c8ChB] [c8ChB, c8ChA] ∧
    ([[(1 : ℝ), 0]] : List (List ℝ)) ≠ [[0, 1]] := by
  refine ⟨⟨[c8VA.clone], by rfl, by rfl⟩, ⟨[c8VB.clone], by rfl, by rfl⟩,
    List.Perm.swap _ _ _, ?_⟩
  intro hcon
  have h1 : (1 : ℝ) = 0 := by
    have := congrArg (fun l => (l.getD 0 []).getD 0 37) hcon
    simpa using this
  norm_num at h1

theorem getD_ext_real (l1 l2 : List ℝ) (hlen : l1.length = l2.length)
    (h : ∀ j, l1.getD j 0 = l2.getD j 0) : l1 = l2 := by
  apply List.ext_getElem hlen
  intro j h1 h2
  have hj := h j
  rw [List.getD_eq_getElem?_getD, List.getD_eq_getElem?_getD,
      List.getElem?_eq_getElem h1, List.getElem?_eq_getElem h2] at hj
  simpa using hj

theorem clone_marginal (v : Variable) (h : v.marginal.length = v.card) :
    v.clone.marginal = v.marginal := by
  show v.marginal.take v.card ++ List.replicate (v.card - v.marginal.length) 0 = v.marginal
  rw [h, Nat.sub_self, List.replicate_zero, List.append_nil, ← h, List.take_length]

theorem clone_marginal_length (v : Variable) : v.clone.marginal.length = v.card := by
  show (v.marginal.take v.card ++ List.replicate (v.card - v.marginal.length) 0).length = v.card
  rw [List.length_append, List.length_take, List.length_replicate]
  omega

theorem addMarginal_length (dst src : List ℝ) :
    (addMarginal dst src).length = dst.length := by
  rw [addMarginal, List.length_append, List.length_zipWith, List.length_drop]
  omega

theorem addMarginal_getD (dst src : List ℝ) (h : src.length = dst.length) (j : Nat) :
    (addMarginal dst src).getD j 0 = dst.getD j 0 + src.getD j 0 := by
  rw [addMarginal, List.drop_eq_nil_of_le (by omega), List.append_nil]
  induction dst generalizing src j with
  | nil =>
      rw [List.length_nil, List.length_eq_zero] at h
      subst h
      simp
  | cons x xs ih =>
      match src, h with
      | y :: ys, h =>
          match j with
          | 0 => simp
          | j + 1 =>
              rw [List.zipWith_cons_cons]
              show (List.zipWith _ xs ys).getD j 0 = xs.getD j 0 + ys.getD j 0
              exact ih ys (by simpa using h) j

theorem rangeMap_getD (n : Nat) (f : Nat → Variable) (i : Nat) (hi : i < n) :
    ((List.range n).map f).getD i defaultVar = f i := by
  rw [List.getD_eq_getElem?_getD, List.getElem?_map,
      List.getElem?_range hi]
  rfl

theorem collapsedAt_iff (chains : List Chain) (i : Nat) :
    collapsedAt chains i = true ↔
      ∃ ch ∈ chains, (ch.target.vars.getD i defaultVar).collapsed = true := by
  rw [collapsedAt, List.any_eq_true]

theorem collapsedAt_perm (chains1 chains2 : List Chain) (hperm : chains1.Perm chains2)
    (i : Nat) : collapsedAt chains1 i = collapsedAt chains2 i := by
  have hbool : ∀ b1 b2 : Bool, (b1 = true ↔ b2 = true) → b1 = b2 := by decide
  apply hbool
  rw [collapsedAt_iff, collapsedAt_iff]
  constructor
  · intro ⟨ch, hm, hc⟩
    exact ⟨ch, hperm.mem_iff.mp hm, hc⟩
  · intro ⟨ch, hm, hc⟩
    exact ⟨ch, hperm.mem_iff.mpr hm, hc⟩

theorem foundVar_of_collapsed (chains : List Chain) (i : Nat)
    (h : collapsedAt chains i = true) :
    ∃ v, foundVar chains i = some v ∧ v.collapsed = true ∧
      ∃ ch ∈ chains, v = ch.target.vars.getD i defaultVar := by
  obtain ⟨ch, hm, hc⟩ := (collapsedAt_iff chains i).mp h
  have hsome : (chains.find?
      (fun ch => (ch.target.vars.getD i defaultVar).collapsed)).isSome := by
    rw [List.find?_isSome]
    exact ⟨ch, hm, hc⟩
  obtain ⟨ch2, hch2⟩ := Option.isSome_iff_exists.mp hsome
  refine ⟨ch2.target.vars.getD i defaultVar, ?_, ?_, ch2, ?_, rfl⟩
  · rw [foundVar, hch2]
    rfl
  · have := List.find?_some hch2
    simpa using this
  · exact List.mem_of_find?_eq_some hch2

theorem foundVar_of_not_collapsed (chains : List Chain) (i : Nat)
    (h : collapsedAt chains i = false) : foundVar chains i = none := by
  have hnone : chains.find?
      (fun ch => (ch.target.vars.getD i defaultVar).collapsed) = none := by
    rw [List.find?_eq_none]
    intro ch hm hc
    have htrue : collapsedAt chains i = true :=
      (collapsedAt_iff chains i).mpr ⟨ch, hm, by simpa using hc⟩
    rw [h] at htrue
    cases htrue
  rw [foundVar, hnone]
  rfl

theorem mergeInit_length (chains : List Chain) (ch0 : Chain) (n : Nat) :
    (mergeInit chains ch0 n).length = n := by
  rw [mergeInit, List.length_map, List.length_range]

theorem mergeInit_getD (chains : List Chain) (ch0 : Chain) (n i : Nat) (hi : i < n) :
    (mergeInit chains ch0 n).getD i defaultVar
      = match foundVar chains i with
        | some v => v.clone
        | none => (ch0.target.vars.getD i defaultVar).clone := by
  rw [mergeInit, rangeMap_getD n _ i hi]

theorem mergeAccum_spec (chains : List Chain) (n : Nat) (chs : List Chain)
    (vars : List Variable)
    (hvlen : vars.length = n)
    (hchlen : ∀ ch ∈ chs, ch.target.vars.length = n)
    (hmlen : ∀ ch ∈ chs, ∀ i, i < n →
      ((ch.target.vars.getD i defaultVar).marginal).length
        = ((vars.getD i defaultVar).marginal).length) :
    ∃ vs, mergeAccum chains n chs vars = .ok vs ∧ vs.length = n ∧
      ∀ i, i < n →
        (collapsedAt chains i = true → vs.getD i defaultVar = vars.getD i defaultVar) ∧
        (collapsedAt chains i = false →
          (vs.getD i defaultVar).collapsed = (vars.getD i defaultVar).collapsed ∧
          (vs.getD i defaultVar).marginal.length
            = (vars.getD i defaultVar).marginal.length ∧
          ∀ j, (vs.getD i defaultVar).marginal.getD j 0
              = (vars.getD i defaultVar).marginal.getD j 0
                + (chs.map
                    (fun ch => (ch.target.vars.getD i defaultVar).marginal.getD j 0)).sum) := by
  induction chs generalizing vars with
  | nil =>
      refine ⟨vars, rfl, hvlen, fun i hi => ⟨fun _ => rfl, fun _ => ⟨rfl, rfl, fun j => ?_⟩⟩⟩
      simp
  | cons ch rest ih =>
      have hchn : ch.target.vars.length = n := hchlen ch (by simp)
      set vars2 : List Variable := (List.range n).map (fun varIdx =>
        let dst := vars.getD varIdx defaultVar
        if collapsedAt chains varIdx then dst
        else withAddedMarginal dst ((ch.target.vars.getD varIdx defaultVar).marginal))
        with hvars2
      have hv2len : vars2.length = n := by
        rw [hvars2, List.length_map, List.length_range]
      have hv2getD : ∀ i, i < n → vars2.getD i defaultVar
          = (if collapsedAt chains i then vars.getD i defaultVar
             else withAddedMarginal (vars.getD i defaultVar)
                ((ch.target.vars.getD i defaultVar).marginal)) := by
        intro i hi
        rw [hvars2, rangeMap_getD n _ i hi]
      have hv2mlen : ∀ i, i < n →
          ((vars2.getD i defaultVar).marginal).length
            = ((vars.getD i defaultVar).marginal).length := by
        intro i hi
        rw [hv2getD i hi]
        by_cases hcol : collapsedAt chains i
        · rw [if_pos hcol]
        · rw [if_neg hcol]
          show (addMarginal _ _).length = _
          rw [addMarginal_length]
      obtain ⟨vs, hok, hvslen, hspec⟩ := ih vars2 hv2len
        (fun c hc => hchlen c (by simp [hc]))
        (fun c hc i hi => by
          rw [hv2mlen i hi]
          exact hmlen c (by simp [hc]) i hi)
      refine ⟨vs, ?_, hvslen, ?_⟩
      · simp only [mergeAccum]
        rw [if_neg (by omega), hok]
      · intro i hi
        obtain ⟨hc1, hc2⟩ := hspec i hi
        constructor
        · intro hcol
          rw [hc1 hcol, hv2getD i hi, if_pos hcol]
        · intro hcol
          obtain ⟨hf, hl, hsum⟩ := hc2 hcol
          have hv2i : vars2.getD i defaultVar
              = withAddedMarginal (vars.getD i defaultVar)
                  ((ch.target.vars.getD i defaultVar).marginal) := by
            rw [hv2getD i hi, if_neg (by simp [hcol])]
          refine ⟨?_, ?_, ?_⟩
          · rw [hf, hv2i]
            rfl
          · rw [hl, hv2i]
            show (addMarginal _ _).length = _
            rw [addMarginal_length]
          · intro j
            rw [hsum j, hv2i]
            show (addMarginal (vars.getD i defaultVar).marginal
                ((ch.target.vars.getD i defaultVar).marginal)).getD j 0 + _ = _
            rw [addMarginal_getD _ _ (hmlen ch (by simp) i hi) j]
            rw [List.map_cons, List.sum_cons]
            ring

theorem mergeChains_spec (c0 c1 : Chain) (rest : List Chain) (n : Nat) (C : Nat → Nat)
    (hwf : ∀ ch ∈ (c0 :: c1 :: rest), ch.target.vars.length = n ∧
      ∀ i, i < n → ((ch.target.vars.getD i defaultVar).marginal).length = C i ∧
        (ch.target.vars.getD i defaultVar).card = C i) :
    ∃ vs, mergeChains (c0 :: c1 :: rest) = .ok vs ∧ vs.length = n ∧
      ∀ i, i < n →
        (collapsedAt (c0 :: c1 :: rest) i = true →
          ∃ v, foundVar (c0 :: c1 :: rest) i = some v ∧
            (vs.getD i defaultVar).marginal = v.marginal ∧
            (vs.getD i defaultVar).collapsed = true) ∧
        (collapsedAt (c0 :: c1 :: rest) i = false →
          (vs.getD i defaultVar).collapsed = false ∧
          (vs.getD i defaultVar).marginal.length = C i ∧
          ∀ j, (vs.getD i defaultVar).marginal.getD j 0
            = (((c0 :: c1 :: rest).map
                (fun ch => (ch.target.vars.getD i defaultVar).marginal.getD j 0)).sum)) := by
  have hn0 : c0.target.vars.length = n := (hwf c0 (by simp)).1
  have hinit_getD : ∀ i, i < n → (mergeInit (c0 :: c1 :: rest) c0 n).getD i defaultVar
      = (match foundVar (c0 :: c1 :: rest) i with
         | some v => v.clone
         | none => (c0.target.vars.getD i defaultVar).clone) :=
    fun i hi => mergeInit_getD _ c0 n i hi
  have hinit_mlen : ∀ i, i < n →
      ((mergeInit (c0 :: c1 :: rest) c0 n).getD i defaultVar).marginal.length = C i := by
    intro i hi
    rw [hinit_getD i hi]
    by_cases hcol : collapsedAt (c0 :: c1 :: rest) i = true
    · obtain ⟨v, hv, hvc, ch, hchm, hveq⟩ := foundVar_of_collapsed _ i hcol
      rw [hv]
      show v.clone.marginal.length = C i
      rw [clone_marginal_length, hveq]
      exact ((hwf ch hchm).2 i hi).2
    · rw [foundVar_of_not_collapsed _ i (by simpa using hcol)]
      show (c0.target.vars.getD i defaultVar).clone.marginal.length = C i
      rw [clone_marginal_length]
      exact ((hwf c0 (by simp)).2 i hi).2
  obtain ⟨vs, hok, hvslen, hspec⟩ := mergeAccum_spec (c0 :: c1 :: rest) n (c1 :: rest)
    (mergeInit (c0 :: c1 :: rest) c0 n)
    (mergeInit_length _ c0 n)
    (fun ch hm => (hwf ch (by simp [hm])).1)
    (fun ch hm i hi => by
      rw [hinit_mlen i hi]
      exact ((hwf ch (by simp [hm])).2 i hi).1)
  refine ⟨vs, ?_, hvslen, ?_⟩
  · rw [show mergeChains (c0 :: c1 :: rest)
        = mergeAccum (c0 :: c1 :: rest) c0.target.vars.length (c1 :: rest)
            (mergeInit (c0 :: c1 :: rest) c0 c0.target.vars.length) from rfl]
    rw [hn0]
    exact hok
  · intro i hi
    obtain ⟨hc1, hc2⟩ := hspec i hi
    constructor
    · intro hcol
      obtain ⟨v, hv, hvc, ch, hchm, hveq⟩ := foundVar_of_collapsed _ i hcol
      have hvlen : v.marginal.length = v.card := by
        rw [hveq, ((hwf ch hchm).2 i hi).1, ((hwf ch hchm).2 i hi).2]
      refine ⟨v, hv, ?_, ?_⟩
      · rw [hc1 hcol, hinit_getD i hi, hv]
        show v.clone.marginal = v.marginal
        exact clone_marginal v hvlen
      · rw [hc1 hcol, hinit_getD i hi, hv]
        show v.clone.collapsed = true
        rw [show v.clone.collapsed = v.collapsed from rfl]
        exact hvc
    · intro hcol
      obtain ⟨hf, hl, hsum⟩ := hc2 hcol
      have hinit_i : (mergeInit (c0 :: c1 :: rest) c0 n).getD i defaultVar
          = (c0.target.vars.getD i defaultVar).clone := by
        rw [hinit_getD i hi, foundVar_of_not_collapsed _ i hcol]
      have hc0wf : (c0.target.vars.getD i defaultVar).marginal.length
          = (c0.target.vars.getD i defaultVar).card := by
        rw [((hwf c0 (by simp)).2 i hi).1, ((hwf c0 (by simp)).2 i hi).2]
      have hc0flag : (c0.target.vars.getD i defaultVar).collapsed = false := by
        by_contra hcon
        have : collapsedAt (c0 :: c1 :: rest) i = true :=
          (collapsedAt_iff _ i).mpr ⟨c0, by simp, by simpa using hcon⟩
        rw [hcol] at this
        cases this
      refine ⟨?_, ?_, ?_⟩
      · rw [hf, hinit_i]
        rw [show (c0.target.vars.getD i defaultVar).clone.collapsed
              = (c0.target.vars.getD i defaultVar).collapsed from rfl]
        exact hc0flag
      · rw [hl, hinit_i]
        show (c0.target.vars.getD i defaultVar).clone.marginal.length = C i
        rw [clone_marginal_length]
        exact ((hwf c0 (by simp)).2 i hi).2
      · intro j
        rw [hsum j, hinit_i]
        rw [show ((c0.target.vars.getD i defaultVar).clone).marginal
              = (c0.target.vars.getD i defaultVar).marginal from clone_marginal _ hc0wf]
        simp only [List.map_cons, List.sum_cons]

theorem getElem_eq_getD_var (l : List Variable) (i : Nat) (hi : i < l.length) :
    l[i] = l.getD i defaultVar := by
  rw [List.getD_eq_getElem?_getD, List.getElem?_eq_getElem hi]
  rfl

/-- C8 (amended): `MergeChains` on a single chain returns that chain's
variables unchanged; on any non-empty chain list over models with equal
variable counts and equal per-position cardinalities (marginals of matching
length), its result's per-position marginal vectors and `Collapsed` flags
are invariant under any permutation of the input chains PROVIDED all chains
that have a given variable collapsed agree on its cached marginal - the
code clones the FIRST collapsed variable found in chain order, so without
that agreement the result depends on the order (see the counterexample). -/
theorem claim_C8 (n : Nat) (C : Nat → Nat) (chains1 chains2 : List Chain)
    (hperm : chains1.Perm chains2)
    (hne : chains1 ≠ [])
    (hwf : ∀ ch ∈ chains1, ch.target.vars.length = n ∧
      ∀ i, i < n → ((ch.target.vars.getD i defaultVar).marginal).length = C i ∧
        (ch.target.vars.getD i defaultVar).card = C i)
    (hagree : ∀ ch ∈ chains1, ∀ ch2 ∈ chains1, ∀ i, i < n →
      (ch.target.vars.getD i defaultVar).collapsed = true →
      (ch2.target.vars.getD i defaultVar).collapsed = true →
      (ch.target.vars.getD i defaultVar).marginal
        = (ch2.target.vars.getD i defaultVar).marginal) :
    (∀ c : Chain, mergeChains [c] = .ok c.target.vars) ∧
    ∃ vs1 vs2, mergeChains chains1 = .ok vs1 ∧ mergeChains chains2 = .ok vs2 ∧
      vs1.map (fun v => v.marginal) = vs2.map (fun v => v.marginal) ∧
      vs1.map (fun v => v.collapsed) = vs2.map (fun v => v.collapsed) := by
  refine ⟨fun c => rfl, ?_⟩
  match chains1, hperm, hne, hwf, hagree with
  | [], hperm, hne, hwf, hagree => exact absurd rfl hne
  | [c0], hperm, hne, hwf, hagree =>
      have h2 : chains2 = [c0] := List.perm_singleton.mp hperm.symm
      have hm1 : mergeChains [c0] = .ok c0.target.vars := rfl
      refine ⟨c0.target.vars, c0.target.vars, hm1, ?_, rfl, rfl⟩
      rw [h2]
      exact hm1
  | c0 :: c1 :: rest, hperm, hne, hwf, hagree =>
      have hlen2 : chains2.length = rest.length + 2 := by
        rw [← hperm.length_eq]
        simp
      obtain ⟨d0, d1, rest2, h2eq⟩ : ∃ d0 d1 rest2, chains2 = d0 :: d1 :: rest2 := by
        match chains2, hlen2 with
        | [], h => exact absurd h (by simp)
        | [x], h => exact absurd h (by simp)
        | x :: y :: zs, h => exact ⟨x, y, zs, rfl⟩
      subst h2eq
      have hmem : ∀ ch, ch ∈ (d0 :: d1 :: rest2) → ch ∈ (c0 :: c1 :: rest) :=
        fun ch hm => hperm.mem_iff.mpr hm
      have hwf2 : ∀ ch ∈ (d0 :: d1 :: rest2), ch.target.vars.length = n ∧
          ∀ i, i < n → ((ch.target.vars.getD i defaultVar).marginal).length = C i ∧
            (ch.target.vars.getD i defaultVar).card = C i :=
        fun ch hm => hwf ch (hmem ch hm)
      obtain ⟨vs1, hok1, hlen1, hspec1⟩ := mergeChains_spec c0 c1 rest n C hwf
      obtain ⟨vs2, hok2, hlen2b, hspec2⟩ := mergeChains_spec d0 d1 rest2 n C hwf2
      refine ⟨vs1, vs2, hok1, hok2, ?_, ?_⟩
      · -- per-position marginal vectors agree
        apply List.ext_getElem (by simp [hlen1, hlen2b])
        intro i hi1 hi2
        rw [List.length_map, hlen1] at hi1
        simp only [List.getElem_map]
        rw [getElem_eq_getD_var vs1 i (by omega), getElem_eq_getD_var vs2 i (by omega)]
        have hcoleq : collapsedAt (c0 :: c1 :: rest) i = collapsedAt (d0 :: d1 :: rest2) i :=
          collapsedAt_perm _ _ hperm i
        by_cases hcol : collapsedAt (c0 :: c1 :: rest) i = true
        · obtain ⟨v1, hv1, hm1, hcf1⟩ := (hspec1 i hi1).1 hcol
          obtain ⟨v2, hv2, hm2, hcf2⟩ := (hspec2 i hi1).1 (hcoleq ▸ hcol)
          obtain ⟨w1, hw1, hwc1, ch1m, hch1m, hweq1⟩ := foundVar_of_collapsed _ i hcol
          obtain ⟨w2, hw2, hwc2, ch2m, hch2m, hweq2⟩ :=
            foundVar_of_collapsed _ i (hcoleq ▸ hcol)
          rw [hv1] at hw1
          rw [hv2] at hw2
          cases hw1
          cases hw2
          rw [hm1, hm2, hweq1, hweq2]
          exact hagree ch1m hch1m ch2m (hmem ch2m hch2m) i hi1
            (hweq1 ▸ hwc1) (hweq2 ▸ hwc2)
        · have hcol1 : collapsedAt (c0 :: c1 :: rest) i = false := by
            simpa using hcol
          obtain ⟨-, hl1, hsum1⟩ := (hspec1 i hi1).2 hcol1
          obtain ⟨-, hl2, hsum2⟩ := (hspec2 i hi1).2 (hcoleq ▸ hcol1)
          apply getD_ext_real _ _ (by rw [hl1, hl2])
          intro j
          rw [hsum1 j, hsum2 j]
          exact (hperm.map
            (fun ch => (ch.target.vars.getD i defaultVar).marginal.getD j 0)).sum_eq
      · -- per-position collapsed flags agree
        apply List.ext_getElem (by simp [hlen1, hlen2b])
        intro i hi1 hi2
        rw [List.length_map, hlen1] at hi1
        simp only [List.getElem_map]
        rw [getElem_eq_getD_var vs1 i (by omega), getElem_eq_getD_var vs2 i (by omega)]
        have hcoleq : collapsedAt (c0 :: c1 :: rest) i = collapsedAt (d0 :: d1 :: rest2) i :=
          collapsedAt_perm _ _ hperm i
        by_cases hcol : collapsedAt (c0 :: c1 :: rest) i = true
        · obtain ⟨v1, hv1, hm1, hcf1⟩ := (hspec1 i hi1).1 hcol
          obtain ⟨v2, hv2, hm2, hcf2⟩ := (hspec2 i hi1).1 (hcoleq ▸ hcol)
          rw [hcf1, hcf2]
        · have hcol1 : collapsedAt (c0 :: c1 :: rest) i = false := by
            simpa using hcol
          obtain ⟨hf1, -, -⟩ := (hspec1 i hi1).2 hcol1
          obtain ⟨hf2, -, -⟩ := (hspec2 i hi1).2 (hcoleq ▸ hcol1)
          rw [hf1, hf2]

theorem claim_C8_wit :
    mergeChains [c8ChA] = .ok c8ChA.target.vars ∧
    ∃ vs1 vs2, mergeChains [c8ChA, c8ChC] = .ok vs1 ∧
      mergeChains [c8ChC, c8ChA] = .ok vs2 ∧
      vs1.map (fun v => v.marginal) = vs2.map (fun v => v.marginal) ∧
      vs1.map (fun v => v.collapsed) = vs2.map (fun v => v.collapsed) := by
  obtain ⟨h1, h2⟩ := claim_C8 1 (fun _ => 2) [c8ChA, c8ChC] [c8ChC, c8ChA]
    (List.Perm.swap _ _ _)
    (by simp)
    (by
      intro ch hch
      have hvars : ch.target.vars = [c8VA] := by
        rcases List.mem_cons.mp hch with rfl | h
        · rfl
        · rcases List.mem_cons.mp h with rfl | hx
          · rfl
          · exact absurd hx (List.not_mem_nil _)
      refine ⟨by rw [hvars]; rfl, ?_⟩
      intro i hi
      have hi0 : i = 0 := by omega
      subst hi0
      rw [hvars]
      exact ⟨rfl, rfl⟩)
    (by
      intro ch hch ch2 hch2 i hi hc1 hc2
      have hvars : ∀ c, c ∈ [c8ChA, c8ChC] → c.target.vars = [c8VA] := by
        intro c hc
        rcases List.mem_cons.mp hc with rfl | h
        · rfl
        · rcases List.mem_cons.mp h with rfl | hx
          · rfl
          · exact absurd hx (List.not_mem_nil _)
      rw [hvars ch hch, hvars ch2 hch2])
  exact ⟨h1 c8ChA, h2⟩

/-! ### ConvergenceSampler.Adapt target selection (adaptive.go)

`Adapt` builds the candidate list from the merged variables (`FixedVal < 0`,
not `Collapsed`, `BlanketSize(v) <= NeighborVarMax`), and when there are more
candidates than `newChainCount` it calls `ChainConvergence`, sorts the
candidates with `sort.Slice(vars, func(i, j int) bool { return
converge[vars[i].ID] > converge[vars[j].ID] })` (descending by diagnostic)
and then collects ids with `pos := len(vars) - 1; for cc := 0; cc <
newChainCount; cc++ { targetVarIdxs = append(targetVarIdxs, vars[pos].ID);
pos-- }` - i.e. from the END of the descending-sorted slice. Go's
`sort.Slice` is not stable and its algorithm is unspecified, so the sorted
slice is modelled as a parameter `sorted` constrained (in the theorems) to
be a permutation of the candidates that is pairwise descending under the
comparator. -/

def neighborVarMax : Nat := 15

/-- The candidate filter of `Adapt` (`BlanketSize` is a parameter: it comes
from the freshly created `GibbsCollapsed` sampler). -/
def adaptCandidates (mergedVars : List Variable) (blanketSize : Variable → Nat) :
    List Variable :=
  mergedVars.filter
    (fun v => decide (v.fixedVal < 0) && !v.collapsed &&
      decide (blanketSize v ≤ neighborVarMax))

/-- The id-collection loop of `Adapt`: walking `pos` from `len(sorted)-1`
downwards for `newChainCount` steps. -/
noncomputable def adaptTailPick (sorted : List Variable) (newChainCount : Nat) : List Nat :=
  (List.range newChainCount).map
    (fun cc => (sorted.getD (sorted.length - 1 - cc) defaultVar).id)

/-- The target-id selection of `Adapt`: all candidate ids when there are at
most `newChainCount` of them, otherwise the tail-pick from the sorted
candidates. -/
noncomputable def adaptSelect (mergedVars : List Variable)
    (blanketSize : Variable → Nat)
    (sorted : List Variable) (newChainCount : Nat) : List Nat :=
  let vars := adaptCandidates mergedVars blanketSize
  if vars.length ≤ newChainCount then vars.map (fun v => v.id)
  else adaptTailPick sorted newChainCount

theorem sorted_getLast_min (conv : Nat → ℝ) (l : List Variable) (hne : l ≠ [])
    (hs : l.Sorted fun a b => conv b.id ≤ conv a.id) :
    ∀ v ∈ l, conv ((l.getLast hne).id) ≤ conv v.id := by
  induction l with
  | nil => simp
  | cons x xs ih =>
      cases xs with
      | nil =>
          intro v hv
          rcases List.mem_cons.mp hv with rfl | hv2
          · exact le_refl _
          · exact absurd hv2 (List.not_mem_nil _)
      | cons y ys =>
          have hxs : (y :: ys) ≠ [] := List.cons_ne_nil _ _
          have hlast : (x :: y :: ys).getLast hne = (y :: ys).getLast hxs :=
            List.getLast_cons hxs
          obtain ⟨hx, hs2⟩ := List.pairwise_cons.mp hs
          intro v hv
          rcases List.mem_cons.mp hv with rfl | hv2
          · rw [hlast]
            exact hx _ (List.getLast_mem hxs)
          · rw [hlast]
            exact ih hxs hs2 v hv2

/-- Candidate variable with id 0 for the C1 input (diagnostic 3, the worst
converged). -/
noncomputable def c1V0 : Variable :=
  { id := 0, name := "A", card := 2, fixedVal := -1, marginal := [],
    state := fun _ => 0, collapsed := false }

/-- Candidate variable with id 1 for the C1 input (diagnostic 2). -/
noncomputable def c1V1 : Variable :=
  { id := 1, name := "B", card := 2, fixedVal := -1, marginal := [],
    state := fun _ => 0, collapsed := false }

/-- Candidate variable with id 2 for the C1 input (diagnostic 1, the best
converged). -/
noncomputable def c1V2 : Variable :=
  { id := 2, name := "C", card := 2, fixedVal := -1, marginal := [],
    state := fun _ => 0, collapsed := false }

/-- The convergence diagnostics for the C1 input: 3, 2, 1 for ids 0, 1, 2. -/
noncomputable def c1Conv : Nat → ℝ :=
  fun i => if i = 0 then 3 else if i = 1 then 2 else 1

/-- C1: the claim says that with more candidates than the requested chain
count k, `Adapt` collapses the candidates with the k LARGEST diagnostics
(worst converged). The code sorts descending and then collects ids from the
END of the sorted slice, so the FIRST id it collects belongs to a candidate
whose diagnostic is MINIMAL among all candidates (the best converged) -
for any permutation `sorted` of the candidates that is descending under the
comparator, as Go's unstable `sort.Slice` may produce. -/
theorem claim_C1 (mergedVars : List Variable) (blanketSize : Variable → Nat)
    (conv : Nat → ℝ) (sorted : List Variable) (k : Nat)
    (hperm : sorted.Perm (adaptCandidates mergedVars blanketSize))
    (hsorted : sorted.Sorted fun a b => conv b.id ≤ conv a.id)
    (hk : 0 < k)
    (hlt : k < (adaptCandidates mergedVars blanketSize).length) :
    ∃ vmin,
      (adaptSelect mergedVars blanketSize sorted k).getD 0 0 = vmin.id ∧
      vmin ∈ adaptCandidates mergedVars blanketSize ∧
      ∀ v ∈ adaptCandidates mergedVars blanketSize,
        conv vmin.id ≤ conv v.id := by
  have hsel : adaptSelect mergedVars blanketSize sorted k
      = adaptTailPick sorted k := by
    simp only [adaptSelect]
    rw [if_neg (by omega)]
  have hlen : sorted.length = (adaptCandidates mergedVars blanketSize).length :=
    hperm.length_eq
  have hne : sorted ≠ [] := by
    intro h
    rw [h] at hlen
    simp at hlen
    omega
  have hslen : 0 < sorted.length := by
    rw [hlen]
    omega
  have hgd : sorted.getD (sorted.length - 1 - 0) defaultVar
      = sorted.getLast hne := by
    rw [Nat.sub_zero, List.getD_eq_getElem?_getD,
      List.getElem?_eq_getElem (show sorted.length - 1 < sorted.length by omega),
      List.getLast_eq_getElem]
    rfl
  refine ⟨sorted.getLast hne, ?_, ?_, ?_⟩
  · rw [hsel]
    show ((List.range k).map
      (fun cc => (sorted.getD (sorted.length - 1 - cc) defaultVar).id)).getD 0 0
        = _
    rw [List.getD_eq_getElem?_getD, List.getElem?_map, List.getElem?_range hk]
    show (sorted.getD (sorted.length - 1 - 0) defaultVar).id = _
    rw [hgd]
  · exact hperm.mem_iff.mp (List.getLast_mem hne)
  · intro v hv
    exact sorted_getLast_min conv sorted hne hsorted v (hperm.mem_iff.mpr hv)

/-- C1 witness: three candidates with ids 0, 1, 2 and diagnostics 3, 2, 1;
with k = 1 the code picks id 2 - the candidate with the smallest diagnostic
(best converged), while the claim demands id 0 (largest diagnostic). -/
theorem claim_C1_wit :
    adaptSelect [c1V0, c1V1, c1V2] (fun _ => 0) [c1V0, c1V1, c1V2] 1 = [2] ∧
    c1Conv 2 < c1Conv 0 ∧
    ∃ vmin,
      (adaptSelect [c1V0, c1V1, c1V2] (fun _ => 0) [c1V0, c1V1, c1V2] 1).getD 0 0
        = vmin.id ∧
      vmin ∈ adaptCandidates [c1V0, c1V1, c1V2] (fun _ => 0) ∧
      ∀ v ∈ adaptCandidates [c1V0, c1V1, c1V2] (fun _ => 0),
        c1Conv vmin.id ≤ c1Conv v.id := by
  refine ⟨rfl, by norm_num [c1Conv], ?_⟩
  exact claim_C1 [c1V0, c1V1, c1V2] (fun _ => 0) c1Conv [c1V0, c1V1, c1V2] 1
    (List.Perm.refl _)
    (by
      simp only [List.sorted_cons, List.mem_cons, List.mem_singleton]
      norm_num [c1Conv, c1V0, c1V1, c1V2])
    (by norm_num)
    (by norm_num [adaptCandidates, c1V0, c1V1, c1V2, neighborVarMax])

/-! ### GibbsCollapsed.Collapse (part_005)

`Collapse(varIdx)` integrates a variable out of the model.  The embedding
below follows the source for an explicit non-negative index (the `varIdx <
0` branch only selects a random index and then runs the identical code, so
properties of successful collapses are unaffected).  Go iterates the
`varNeighbors[varIdx]` map in unspecified key order when building the
blanket; the embedding fixes ascending variable-position order (the claim
properties - lengths, coverage, references - do not depend on that order).
Go panics (out-of-range marginal/table writes) cannot occur on the paths
the theorems touch; the embedding uses `List.set`/`getD`, which are total. -/

/-- The id multiset of `varNeighbors[vid]`: every id of every variable of
every factor touching `vid` (`FunctionsChanged` in part_005). -/
def neighborIds (funcs : List Function) (vid : Nat) : List Nat :=
  (varFuncs funcs vid).bind (fun f => f.vars.map (fun w => w.id))

/-- `calcTabSize` from part_022: 0 for an empty variable list, otherwise the
product of the cardinalities. -/
def calcTabSize : List Variable → Nat
  | [] => 0
  | vars => (vars.map (fun v => v.card)).prod

/-- `NewFunction` from part_022: named "func-index", zero-filled table of
size `calcTabSize`, linear space. -/
noncomputable def newFunction (index : Int) (vars : List Variable) :
    Except String Function :=
  if index < 0 then .error "Invalid index for function"
  else if vars.length < 1 then .error "Empty variable list for function"
  else if calcTabSize vars < 1 then .error "could not calculate table size"
  else .ok { name := "func-" ++ toString index, vars := vars,
             table := List.replicate (calcTabSize vars) 0, isLog := false }

/-- Modelled from the spec: `Factor.AddValue(vals, x)` is only available in
non-log mode and adds `x` to the table cell at the index computed from
`vals` (the function itself is absent from the sources; only its callers and
tests remain). -/
noncomputable def Function.addValue (f : Function) (vals : List Int) (x : ℝ) :
    Except String Function :=
  if f.isLog then .error "Can not AddValue in log mode"
  else match f.calcIndex vals with
    | .error e => .error e
    | .ok i => .ok { f with table := f.table.set i.toNat (f.table.getD i.toNat 0 + x) }

/-- The value domain a `VariableIter` walks for one variable: the fixed
value alone when `honorFixed` and the variable is fixed, otherwise
`0..Card-1` (a cardinality-0 variable still contributes the single initial
value 0, matching the do-while emission). -/
def varDomain (honorFixed : Bool) (v : Variable) : List Int :=
  if honorFixed && decide (0 ≤ v.fixedVal) then [v.fixedVal]
  else (List.range (max v.card 1)).map (fun n => (n : Int))

/-- The full value sequence of `VariableIter` (variable_iter.go): odometer
order with the LAST variable fastest, i.e. the lexicographic product with
the first variable outermost. -/
def iterVals (honorFixed : Bool) : List Variable → List (List Int)
  | [] => [[]]
  | v :: rest =>
      (varDomain honorFixed v).bind
        (fun x => (iterVals honorFixed rest).map (fun t => x :: t))

/-- The inner function loop of `Collapse`: evaluates every factor touching
the collapsed variable at the projection of the current blanket state and
sums the (log-space) results; any `Eval` error aborts. -/
noncomputable def collapseFuncSum (xref : Nat → Nat) (st : List Int) :
    List Function → Except String ℝ
  | [] => .ok 0
  | f :: rest =>
      match f.eval (f.vars.map (fun w => st.getD (xref w.id) 0)) with
      | .error e => .error e
      | .ok r =>
          match collapseFuncSum xref st rest with
          | .error e => .error e
          | .ok s => .ok (r + s)

/-- The configuration loop of `Collapse`: for each blanket state, add
`exp(funcResult)` to the collapsed marginal at the state's value of the
collapsed variable and `AddValue` the same quantity into the new factor
(whose variable list is exactly `newFuncVars`).  The `AddValue` error is
discarded at the call site in the source, so an error leaves the factor
unchanged. -/
noncomputable def collapseLoop (fns : List Function) (xref : Nat → Nat)
    (collIdx : Nat) :
    List (List Int) → Variable → Function → Except String (Variable × Function)
  | [], cv, pf => .ok (cv, pf)
  | st :: rest, cv, pf =>
      match collapseFuncSum xref st fns with
      | .error e => .error e
      | .ok r =>
          let fr := Real.exp r
          let mv := (st.getD collIdx 0).toNat
          let cv2 := { cv with marginal := cv.marginal.set mv (cv.marginal.getD mv 0 + fr) }
          let pf2 := match pf.addValue (pf.vars.map (fun w => st.getD (xref w.id) 0)) fr with
            | .ok f2 => f2
            | .error _ => pf
          collapseLoop fns xref collIdx rest cv2 pf2

/-- `Variable.NormMarginal` from model/variable.go: the `Card == 1` case
writes 1.0 and falls through; within EPS of sum 1 leaves the vector; within
EPS of sum 0 resets to uniform; otherwise divides by the sum. -/
noncomputable def Variable.normMarginal (v : Variable) : Except String Variable :=
  if v.card ≠ v.marginal.length then .error "can not norm"
  else if v.card < 1 then .ok v
  else
    let m0 := if v.card = 1 then v.marginal.set 0 1 else v.marginal
    let s := m0.sum
    if |s - 1| < 1e-8 then .ok { v with marginal := m0 }
    else if |s| < 1e-8 then .ok { v with marginal := m0.map (fun _ => 1 / (v.card : ℝ)) }
    else .ok { v with marginal := m0.map (fun p => p / s) }

/-- `Function.UseLogSpace` from part_022: rejects a second call; entries
below `1e-6` get the epsilon added before the natural log. -/
noncomputable def Function.useLogSpace (f : Function) : Except String Function :=
  if f.isLog then .error "IsLog already set - double-call detected"
  else .ok { f with
    table := f.table.map (fun v => Real.log (if v < 1e-6 then v + 1e-6 else v)),
    isLog := true }

/-- Go `copy(dst, src)`: overwrites the first `min` entries of `dst` with
`src`, keeping `dst`'s length. -/
def copyTo (dst src : List ℝ) : List ℝ :=
  src.take dst.length ++ dst.drop src.length

/-- `Variable.Check` from model/variable.go: cardinality matches the
marginal length, `FixedVal` is -1 or in `[0, Card)`, and (for positive
cardinality) the marginal sums to 1 within EPS `1e-8`. -/
noncomputable def Variable.check (v : Variable) : Except String Unit :=
  if v.card ≠ v.marginal.length then .error "Card != len(M)"
  else if v.fixedVal ≠ -1 ∧ (v.fixedVal < 0 ∨ (v.card : Int) ≤ v.fixedVal) then
    .error "has fixed val but must be -1 or match card"
  else if 0 < v.card ∧ 1e-8 ≤ |v.marginal.sum - 1| then
    .error "has marginal dist with bad sum"
  else .ok ()

/-- The variable loop of `Model.Check` (part_032): per-variable `Check`,
duplicate-id detection via the seen-id set, and the fixed-variable count. -/
noncomputable def modelCheckVars : List Variable → List Nat → Nat → Except String Nat
  | [], _, fixCount => .ok fixCount
  | v :: rest, seen, fixCount =>
      match v.check with
      | .error e => .error e
      | .ok _ =>
          if seen.contains v.id then .error "Duplicate Id"
          else modelCheckVars rest (v.id :: seen)
            (if -1 < v.fixedVal then fixCount + 1 else fixCount)

/-- The function loop of `Model.Check`: `Function.Check` per factor (table
size computable and equal to the stored table's length). -/
noncomputable def modelCheckFuncs : List Function → Except String Unit
  | [] => .ok ()
  | f :: rest =>
      if calcTabSize f.vars < 1 then .error "can not calculate table size"
      else if calcTabSize f.vars ≠ f.table.length then .error "expected table size"
      else modelCheckFuncs rest

/-- `Model.Check` from part_032 (the authoritative revision): model type,
per-variable checks with duplicate-id detection, the not-all-fixed check,
and per-function checks. -/
noncomputable def Model.check (m : Model) : Except String Unit :=
  if ¬ (m.type = "BAYES" ∨ m.type = "MARKOV") then .error "Unknown model type"
  else match modelCheckVars m.vars [] 0 with
    | .error e => .error e
    | .ok fixCount =>
        if m.vars.length ≤ fixCount then .error "all vars are fixed!"
        else modelCheckFuncs m.funcs

/-- The restart loop of `GibbsSimple.FunctionsChanged`: for every un-fixed
variable a weighted draw from its marginal must succeed (the drawn value
only updates the working sample, which the collapse result does not
expose); the generator draws are the oracle `us`. -/
noncomputable def fcDrawLoop (us : Nat → ℝ) : List (Nat × Variable) → Except String Unit
  | [] => .ok ()
  | (i, v) :: rest =>
      if 0 ≤ v.fixedVal then fcDrawLoop us rest
      else match weightedSample (v.card : Int) v.marginal (us i) with
        | .error e => .error e
        | .ok _ => fcDrawLoop us rest

/-- `GibbsSimple.FunctionsChanged` (gibbs-simple.go): every factor must be
in log space, then the per-variable restart draws run. -/
noncomputable def functionsChangedSimple (m : Model) (us : Nat → ℝ) :
    Except String Unit :=
  if m.funcs.any (fun f => !f.isLog) then .error "not in log space on FunctionsChanged"
  else fcDrawLoop us m.vars.enum

/-- `GibbsCollapsed.FunctionsChanged` (part_005): positions must equal
variable ids, and every collapsed variable must have an empty blanket under
the current factor list. -/
def functionsChangedCollapsed (m : Model) : Except String Unit :=
  if m.vars.enum.any (fun p => !(p.2.id == p.1)) then .error "Invalid variable setup"
  else if m.vars.enum.any (fun p => p.2.collapsed && !(neighborIds m.funcs p.1).isEmpty) then
    .error "is collapsed by has a blanket"
  else .ok ()

/-- The blanket `Collapse` builds for `varIdx`: the model variables whose id
occurs in `varNeighbors[varIdx]`, in ascending position order (Go iterates
the neighbor map in unspecified order; see the section comment). -/
noncomputable def blanketOf (m : Model) (varIdx : Nat) : List Variable :=
  ((List.range m.vars.length).filter
    (fun vi => (neighborIds m.funcs varIdx).contains vi)).map
    (fun vi => m.vars.getD vi defaultVar)

/-- The tail of `Collapse` after the configuration loop: `NormMarginal`,
`UseLogSpace`, append `postFunc` and compact out every factor whose NAME is
in the delete set (failing if nothing is left), then both `FunctionsChanged`
bookkeeping passes, `Model.Check`, and the in-place update of the collapsed
variable. -/
noncomputable def collapseEnd (m2 : Model) (varIdx : Nat) (collVar3 : Variable)
    (us : Nat → ℝ) : Except String (Model × Variable) :=
  match functionsChangedSimple m2 us with
  | .error e => .error e
  | .ok _ =>
      match functionsChangedCollapsed m2 with
      | .error e => .error e
      | .ok _ =>
          match m2.check with
          | .error e => .error e
          | .ok _ =>
              let dest0 := m2.vars.getD varIdx defaultVar
              let marg2 := copyTo dest0.marginal collVar3.marginal
              let dest := { dest0 with collapsed := true, marginal := marg2 }
              .ok ({ m2 with vars := m2.vars.set varIdx dest }, dest)

/-- The normalize/convert/compact stage of `Collapse`. -/
noncomputable def collapseCompact (m : Model) (varIdx : Nat)
    (funcNames : List String) (collVar2 : Variable) (postFunc2 : Function)
    (us : Nat → ℝ) : Except String (Model × Variable) :=
  match collVar2.normMarginal with
  | .error e => .error e
  | .ok collVar3 =>
      match postFunc2.useLogSpace with
      | .error e => .error e
      | .ok postFunc3 =>
          let kept := (m.funcs ++ [postFunc3]).filter
            (fun f => !(funcNames.contains f.name))
          if kept.length < 1 then .error "No functions left after collapse!"
          else collapseEnd { m with funcs := kept } varIdx collVar3 us

/-- `GibbsCollapsed.Collapse` for an explicit index: guards, blanket and
new-function variable construction, the delete-name set, the new factor, the
configuration loop, and the compaction/bookkeeping tail. -/
noncomputable def collapse (m : Model) (varIdx : Nat) (us : Nat → ℝ) :
    Except String (Model × Variable) :=
  if m.vars.length ≤ varIdx then .error "Invalid variable index"
  else
    let collVar0 := (m.vars.getD varIdx defaultVar).clone
    if 0 ≤ collVar0.fixedVal then .error "Can not collapse Fixed Val variable"
    else if collVar0.collapsed then .error "Already collapsed variable"
    else
      let collVar := { collVar0 with marginal := List.replicate collVar0.card (1e-12 : ℝ) }
      let blanket := blanketOf m varIdx
      let newFuncVars := blanket.filter (fun v => !(v.id == collVar.id))
      match blanket.findIdx? (fun v => v.id == collVar.id) with
      | none => .error "Collapsing variable not in its own blanket"
      | some collIdx =>
          if newFuncVars.length ≠ blanket.length - 1 then .error "New function size mismatch"
          else if newFuncVars.length < 1 then .error "New function would have 0 variables"
          else
            let funcs := varFuncs m.funcs varIdx
            if funcs.any (fun f => !f.isLog) then .error "is not set up for Log Space"
            else match newFunction (m.funcs.length : Int) newFuncVars with
              | .error e => .error e
              | .ok postFunc0 =>
                  let postFunc1 := { postFunc0 with name := "COLLAPSE-" ++ collVar.name }
                  let xref := fun id => blanket.findIdx (fun v => v.id == id)
                  match collapseLoop (varFuncs m.funcs collVar.id) xref collIdx
                      (iterVals true blanket) collVar postFunc1 with
                  | .error e => .error e
                  | .ok (collVar2, postFunc2) =>
                      collapseCompact m varIdx (funcs.map (fun f => f.name))
                        collVar2 postFunc2 us

/-- Variable A (id 0) of the C2 models: binary, un-fixed, uniform marginal. -/
noncomputable def c2A : Variable :=
  { id := 0, name := "A", card := 2, fixedVal := -1, marginal := [1/2, 1/2],
    state := fun _ => 0, collapsed := false }

/-- Variable B (id 1) of the C2 models. -/
noncomputable def c2B : Variable :=
  { id := 1, name := "B", card := 2, fixedVal := -1, marginal := [1/2, 1/2],
    state := fun _ => 0, collapsed := false }

/-- Variable C (id 2) of the C2 counterexample model. -/
noncomputable def c2C : Variable :=
  { id := 2, name := "C", card := 2, fixedVal := -1, marginal := [1/2, 1/2],
    state := fun _ => 0, collapsed := false }

/-- Counterexample factor over A,B named "N" (log space, all-ones factor). -/
noncomputable def c2F1 : Function :=
  { name := "N", vars := [c2A, c2B], table := [0, 0, 0, 0], isLog := true }

/-- Counterexample factor over C sharing the name "N". -/
noncomputable def c2F2 : Function :=
  { name := "N", vars := [c2C], table := [0, 0], isLog := true }

/-- The C2 counterexample model: two factors with the same name "N", one
over A,B and one over C alone. -/
noncomputable def c2M : Model :=
  { type := "MARKOV", name := "c2cex", vars := [c2A, c2B, c2C],
    funcs := [c2F1, c2F2] }

/-- The collapsed-variable accumulator after the configuration loop of
`collapse c2M 0` (raw, unsimplified arithmetic). -/
noncomputable def c2CvRaw : Variable :=
  { id := 0, name := "A", card := 2, fixedVal := -1,
    marginal := [1e-12 + Real.exp (0 + 0) + Real.exp (0 + 0),
                 1e-12 + Real.exp (0 + 0) + Real.exp (0 + 0)],
    state := fun _ => 0, collapsed := false }

/-- The new factor after the configuration loop of `collapse c2M 0` (raw). -/
noncomputable def c2PfRaw : Function :=
  { name := "COLLAPSE-A", vars := [c2B],
    table := [0 + Real.exp (0 + 0) + Real.exp (0 + 0),
              0 + Real.exp (0 + 0) + Real.exp (0 + 0)],
    isLog := false }

theorem c2_stage1 : collapse c2M 0 (fun _ => 0)
    = collapseCompact c2M 0 ["N"] c2CvRaw c2PfRaw (fun _ => 0) := rfl

/-- The collapsed factor after `UseLogSpace`. -/
noncomputable def c2PfLog : Function :=
  { name := "COLLAPSE-A", vars := [c2B], table := [Real.log 2, Real.log 2],
    isLog := true }

/-- The counterexample model after compaction (only the collapsed factor
survives: both "N" factors are deleted by name). -/
noncomputable def c2Mmid : Model :=
  { type := "MARKOV", name := "c2cex", vars := [c2A, c2B, c2C],
    funcs := [c2PfLog] }

theorem c2_stage2 : c2CvRaw.normMarginal = .ok c2A := by
  simp only [Variable.normMarginal, c2CvRaw, c2A, List.length_cons,
    List.length_nil, List.sum_cons, List.sum_nil, Real.exp_zero]
  norm_num [le_abs, abs_lt]

theorem c2_stage3 : c2PfRaw.useLogSpace = .ok c2PfLog := by
  simp only [Function.useLogSpace, c2PfRaw, c2PfLog, List.map_cons,
    List.map_nil, Real.exp_zero]
  norm_num

theorem c2_stage4 : collapseCompact c2M 0 ["N"] c2CvRaw c2PfRaw (fun _ => 0)
    = collapseEnd c2Mmid 0 c2A (fun _ => 0) := by
  simp only [collapseCompact, c2_stage2, c2_stage3]
  rfl

theorem c2_ws_half : weightedSample ((2 : Nat) : Int) [(1/2 : ℝ), 1/2] 0 = .ok 0 := by
  norm_num [weightedSample, maxCard, weightsTotal, weightedScan, Except.map]

theorem c2_fcs : functionsChangedSimple c2Mmid (fun _ => 0) = .ok () := by
  simp only [functionsChangedSimple, c2Mmid, c2PfLog, List.any_cons,
    List.any_nil, Bool.not_true, Bool.or_false, Bool.false_or,
    List.enum, List.enumFrom, fcDrawLoop, c2A, c2B, c2C, c2_ws_half]
  norm_num [c2_ws_half]

theorem c2_fcc : functionsChangedCollapsed c2Mmid = .ok () := rfl

theorem varCheck_half (v : Variable) (hc : v.card = 2)
    (hm : v.marginal = [1/2, 1/2]) (hf : v.fixedVal = -1) :
    v.check = .ok () := by
  simp only [Variable.check, hc, hm, hf, List.length_cons, List.length_nil,
    List.sum_cons, List.sum_nil]
  norm_num

theorem c2_check : c2Mmid.check = .ok () := by
  have hA := varCheck_half c2A rfl rfl rfl
  have hB := varCheck_half c2B rfl rfl rfl
  have hC := varCheck_half c2C rfl rfl rfl
  simp only [Model.check, c2Mmid, modelCheckVars, hA, hB, hC]
  norm_num [c2A, c2B, c2C, modelCheckFuncs, calcTabSize, c2PfLog]

/-- The collapsed variable returned to the caller. -/
noncomputable def c2Dest : Variable :=
  { id := 0, name := "A", card := 2, fixedVal := -1, marginal := [1/2, 1/2],
    state := fun _ => 0, collapsed := true }

/-- The final counterexample model: variable A collapsed, variable C
un-collapsed yet no longer referenced by any factor. -/
noncomputable def c2M2 : Model :=
  { type := "MARKOV", name := "c2cex", vars := [c2Dest, c2B, c2C],
    funcs := [c2PfLog] }

theorem c2_stage5 : collapseEnd c2Mmid 0 c2A (fun _ => 0) = .ok (c2M2, c2Dest) := by
  simp only [collapseEnd, c2_fcs, c2_fcc, c2_check]
  rfl

/-- C2 counterexample: `Collapse` on variable A of a model whose two
factors share the name "N" (one over A,B, one over C alone) SUCCEEDS, but
the name-based compaction deletes BOTH factors, so the un-collapsed
variable C (id 2) is left appearing in no factor - the claim requires every
non-collapsed variable to still be covered. -/
theorem claim_C2_cex :
    collapse c2M 0 (fun _ => 0) = .ok (c2M2, c2Dest) ∧
    c2M2.vars.length = c2M.vars.length ∧
    (c2M2.vars.getD 2 defaultVar).collapsed = false ∧
    (c2M2.vars.getD 2 defaultVar).id = 2 ∧
    ¬ (∃ f ∈ c2M2.funcs, ∃ w ∈ f.vars, w.id = 2) := by
  refine ⟨by rw [c2_stage1, c2_stage4, c2_stage5], rfl, rfl, rfl, ?_⟩
  rintro ⟨f, hf, w, hw, hid⟩
  simp only [c2M2, List.mem_singleton] at hf
  subst hf
  simp only [c2PfLog, List.mem_singleton] at hw
  subst hw
  simp [c2B] at hid

theorem addValue_fields (f : Function) (vals : List Int) (x : ℝ) (f2 : Function)
    (h : f.addValue vals x = .ok f2) :
    f2.name = f.name ∧ f2.vars = f.vars ∧ f2.isLog = f.isLog := by
  simp only [Function.addValue] at h
  split at h
  · exact absurd h (by simp)
  · split at h
    · exact absurd h (by simp)
    · simp only [Except.ok.injEq] at h
      subst h
      exact ⟨rfl, rfl, rfl⟩

theorem collapseLoop_fields (fns : List Function) (xref : Nat → Nat) (ci : Nat)
    (configs : List (List Int)) (cv : Variable) (pf : Function)
    (cv2 : Variable) (pf2 : Function)
    (h : collapseLoop fns xref ci configs cv pf = .ok (cv2, pf2)) :
    pf2.name = pf.name ∧ pf2.vars = pf.vars ∧ pf2.isLog = pf.isLog ∧
    cv2.id = cv.id ∧ cv2.name = cv.name ∧ cv2.card = cv.card ∧
    cv2.fixedVal = cv.fixedVal ∧ cv2.collapsed = cv.collapsed := by
  induction configs generalizing cv pf with
  | nil =>
      simp only [collapseLoop, Except.ok.injEq, Prod.mk.injEq] at h
      obtain ⟨h1, h2⟩ := h
      subst h1
      subst h2
      exact ⟨rfl, rfl, rfl, rfl, rfl, rfl, rfl, rfl⟩
  | cons st rest ih =>
      simp only [collapseLoop] at h
      split at h
      · exact absurd h (by simp)
      · next r heq =>
          obtain ⟨hn, hv, hl, hid, hna, hca, hfx, hco⟩ := ih _ _ h
          rcases hav : pf.addValue (List.map (fun w => st.getD (xref w.id) 0) pf.vars)
              (Real.exp r) with e | f3
          · simp only [hav] at hn hv hl
            exact ⟨hn, hv, hl, hid, hna, hca, hfx, hco⟩
          · simp only [hav] at hn hv hl
            obtain ⟨a1, a2, a3⟩ := addValue_fields _ _ _ _ hav
            exact ⟨hn.trans a1, hv.trans a2, hl.trans a3, hid, hna, hca, hfx, hco⟩

theorem normMarginal_fields (v v3 : Variable) (h : v.normMarginal = .ok v3) :
    v3.id = v.id ∧ v3.name = v.name ∧ v3.card = v.card ∧
    v3.fixedVal = v.fixedVal ∧ v3.collapsed = v.collapsed := by
  simp only [Variable.normMarginal] at h
  split at h
  · exact absurd h (by simp)
  · repeat' split at h
    all_goals simp only [Except.ok.injEq] at h
    all_goals subst h
    all_goals exact ⟨rfl, rfl, rfl, rfl, rfl⟩

theorem useLogSpace_fields (f f3 : Function) (h : f.useLogSpace = .ok f3) :
    f3.name = f.name ∧ f3.vars = f.vars ∧ f3.isLog = true := by
  simp only [Function.useLogSpace] at h
  split at h
  · exact absurd h (by simp)
  · simp only [Except.ok.injEq] at h
    subst h
    exact ⟨rfl, rfl, rfl⟩

theorem newFunction_fields (idx : Int) (vars : List Variable) (f0 : Function)
    (h : newFunction idx vars = .ok f0) :
    f0.vars = vars ∧ f0.isLog = false := by
  simp only [newFunction] at h
  split at h
  · exact absurd h (by simp)
  · split at h
    · exact absurd h (by simp)
    · split at h
      · exact absurd h (by simp)
      · simp only [Except.ok.injEq] at h
        subst h
        exact ⟨rfl, rfl⟩

theorem functionsChangedCollapsed_ids (m : Model) (u : Unit)
    (h : functionsChangedCollapsed m = .ok u) :
    ∀ p ∈ m.vars.enum, p.2.id = p.1 := by
  simp only [functionsChangedCollapsed] at h
  split at h
  · exact absurd h (by simp)
  · next hany =>
      intro p hp
      by_contra hne
      apply hany
      rw [List.any_eq_true]
      exact ⟨p, hp, by simp [hne]⟩

theorem varFuncs_mem (funcs : List Function) (vid : Nat) (f : Function) :
    f ∈ varFuncs funcs vid ↔ f ∈ funcs ∧ ∃ w ∈ f.vars, w.id = vid := by
  constructor
  · intro hf
    simp only [varFuncs, List.mem_bind, List.mem_map, List.mem_filter] at hf
    obtain ⟨g, hg, w, ⟨hw, hid⟩, rfl⟩ := hf
    exact ⟨hg, w, hw, by simpa using hid⟩
  · rintro ⟨hf, w, hw, hid⟩
    simp only [varFuncs, List.mem_bind, List.mem_map, List.mem_filter]
    exact ⟨f, hf, w, ⟨hw, by simpa using hid⟩, rfl⟩

theorem neighborIds_mem (funcs : List Function) (vid : Nat) (i : Nat) :
    i ∈ neighborIds funcs vid ↔
      ∃ f ∈ funcs, (∃ a ∈ f.vars, a.id = vid) ∧ ∃ w ∈ f.vars, w.id = i := by
  simp only [neighborIds, List.mem_bind, List.mem_map, varFuncs_mem]
  constructor
  · rintro ⟨f, ⟨hf, ha⟩, w, hw, hid⟩
    exact ⟨f, hf, ha, w, hw, hid⟩
  · rintro ⟨f, hf, ha, w, hw, hid⟩
    exact ⟨f, ⟨hf, ha⟩, w, hw, hid⟩

theorem list_contains_iff {α : Type} [BEq α] [LawfulBEq α] (l : List α) (a : α) :
    l.contains a = true ↔ a ∈ l :=
  List.elem_iff

theorem collapse_inv (m : Model) (varIdx : Nat) (us : Nat → ℝ)
    (m2 : Model) (v : Variable)
    (hok : collapse m varIdx us = .ok (m2, v)) :
    ∃ pf3 : Function,
      varIdx < m.vars.length ∧
      (∀ p ∈ m.vars.enum, p.2.id = p.1) ∧
      pf3.name = "COLLAPSE-" ++ (m.vars.getD varIdx defaultVar).name ∧
      pf3.vars = (blanketOf m varIdx).filter
        (fun w => !(w.id == (m.vars.getD varIdx defaultVar).id)) ∧
      m2.funcs = (m.funcs ++ [pf3]).filter
        (fun f => !(((varFuncs m.funcs varIdx).map (fun g => g.name)).contains f.name)) ∧
      m2.funcs ≠ [] ∧
      m2.vars = m.vars.set varIdx v ∧
      v.collapsed = true ∧
      v.id = (m.vars.getD varIdx defaultVar).id ∧
      m2.vars.length = m.vars.length := by
  simp only [collapse] at hok
  split at hok
  · exact absurd hok (by simp)
  next hlen =>
  split at hok
  · exact absurd hok (by simp)
  next hfx =>
  split at hok
  · exact absurd hok (by simp)
  next hcol =>
  split at hok
  · exact absurd hok (by simp)
  next collIdx hfind =>
  split at hok
  · exact absurd hok (by simp)
  next hsz =>
  split at hok
  · exact absurd hok (by simp)
  next hnfv =>
  split at hok
  · exact absurd hok (by simp)
  next hlog0 =>
  split at hok
  · exact absurd hok (by simp)
  next postFunc0 hnf =>
  split at hok
  · exact absurd hok (by simp)
  next collVar2 postFunc2 hloop =>
  simp only [collapseCompact] at hok
  split at hok
  · exact absurd hok (by simp)
  next collVar3 hnorm =>
  split at hok
  · exact absurd hok (by simp)
  next postFunc3 hlogc =>
  split at hok
  · exact absurd hok (by simp)
  next hkept =>
  simp only [collapseEnd] at hok
  split at hok
  · exact absurd hok (by simp)
  next u1 hfcs =>
  split at hok
  · exact absurd hok (by simp)
  next u2 hfcc =>
  split at hok
  · exact absurd hok (by simp)
  next u3 hcheck =>
  simp only [Except.ok.injEq, Prod.mk.injEq] at hok
  obtain ⟨hm2, hv⟩ := hok
  subst hm2
  subst hv
  obtain ⟨ln, lv, ll, _, _, _, _, _⟩ := collapseLoop_fields _ _ _ _ _ _ _ _ hloop
  obtain ⟨un, uv, ul⟩ := useLogSpace_fields _ _ hlogc
  obtain ⟨nv, nl⟩ := newFunction_fields _ _ _ hnf
  refine ⟨postFunc3, by omega, ?_, ?_, ?_, rfl, ?_, rfl, rfl, rfl, ?_⟩
  · exact fun p hp => functionsChangedCollapsed_ids _ _ hfcc p hp
  · rw [un, ln]
    rfl
  · rw [uv, lv, nv]
    rfl
  · intro hnil
    have hnil2 : (m.funcs ++ [postFunc3]).filter
        (fun f => !(((varFuncs m.funcs varIdx).map (fun g => g.name)).contains f.name))
          = [] := hnil
    rw [hnil2] at hkept
    simp at hkept
  · simp [List.length_set]

/-- C2 (amended): on every successful `Collapse` the variable-list length is
unchanged, the factor list is non-empty, and no remaining factor references
the collapsed variable; and - PROVIDED the factor names are pairwise
distinct and no existing factor is named "COLLAPSE-<collapsed name>" - every
variable that is un-collapsed in the result and was covered by some factor
before is still covered by some factor after. Without the distinct-name
proviso the coverage clause is false: the compaction deletes factors by
NAME, so an unrelated factor sharing a name with a deleted one is deleted
too (see the counterexample). -/
theorem claim_C2 (m : Model) (varIdx : Nat) (us : Nat → ℝ) (m2 : Model)
    (v : Variable) (hok : collapse m varIdx us = .ok (m2, v)) :
    m2.vars.length = m.vars.length ∧
    m2.funcs ≠ [] ∧
    (∀ f ∈ m2.funcs, ∀ w ∈ f.vars, w.id ≠ v.id) ∧
    ((m.funcs.map (fun f => f.name)).Nodup →
      (∀ f ∈ m.funcs, f.name ≠ "COLLAPSE-" ++ (m.vars.getD varIdx defaultVar).name) →
      (∀ i, i < m.vars.length → (m.vars.getD i defaultVar).collapsed = false →
        ∃ f ∈ m.funcs, ∃ w ∈ f.vars, w.id = i) →
      ∀ i, i < m.vars.length → (m2.vars.getD i defaultVar).collapsed = false →
        ∃ f ∈ m2.funcs, ∃ w ∈ f.vars, w.id = i) := by
  obtain ⟨pf3, hlt, hids, hname, hvars, hfuncs, hnen, hset, hvcol, hvid, hlen⟩ :=
    collapse_inv m varIdx us m2 v hok
  have hid_at : ∀ j, j < m.vars.length → (m.vars.getD j defaultVar).id = j := by
    intro j hj
    have hjE : j < m.vars.enum.length := by simpa using hj
    have hmem := List.getElem_mem hjE
    rw [List.getElem_enum] at hmem
    have hj2 := hids _ hmem
    simpa [getElem_eq_getD_var m.vars j hj] using hj2
  have hidIdx : (m.vars.getD varIdx defaultVar).id = varIdx := hid_at varIdx hlt
  refine ⟨hlen, hnen, ?_, ?_⟩
  · intro f hf w hw hweq
    rw [hfuncs] at hf
    obtain ⟨hfmem, hfacc⟩ := List.mem_filter.mp hf
    rcases List.mem_append.mp hfmem with hfm | hfp
    · have hwidix : w.id = varIdx := by rw [hweq, hvid, hidIdx]
      have hfv : f ∈ varFuncs m.funcs varIdx :=
        (varFuncs_mem _ _ _).mpr ⟨hfm, w, hw, hwidix⟩
      have hnm : f.name ∈ (varFuncs m.funcs varIdx).map (fun g => g.name) :=
        List.mem_map_of_mem _ hfv
      rw [Bool.not_eq_true'] at hfacc
      have hct : (List.map (fun g => g.name) (varFuncs m.funcs varIdx)).contains f.name
          = true := (list_contains_iff _ _).mpr hnm
      rw [hct] at hfacc
      exact absurd hfacc (by simp)
    · rw [List.mem_singleton] at hfp
      subst hfp
      rw [hvars] at hw
      obtain ⟨hwb, hwacc⟩ := List.mem_filter.mp hw
      rw [Bool.not_eq_true', beq_eq_false_iff_ne] at hwacc
      exact hwacc (by rw [hweq, hvid])
  · intro hnodup hfresh hcover i hi hicol
    have hne_i : i ≠ varIdx := by
      intro heq
      subst heq
      have hv2 : m2.vars.getD i defaultVar = v := by
        rw [hset,
          ← getElem_eq_getD_var _ _ (show i < (m.vars.set i v).length by
            rw [List.length_set]; omega)]
        exact List.getElem_set_eq (by rw [List.length_set]; omega)
      rw [hv2, hvcol] at hicol
      exact absurd hicol (by simp)
    have hgot : m2.vars.getD i defaultVar = m.vars.getD i defaultVar := by
      rw [hset,
        ← getElem_eq_getD_var _ _ (show i < (m.vars.set varIdx v).length by
          rw [List.length_set]; omega)]
      rw [List.getElem_set_ne (by omega)]
      exact getElem_eq_getD_var _ _ hi
    obtain ⟨f0, hf0, w0, hw0, hwid0⟩ := hcover i hi (by rw [← hgot]; exact hicol)
    by_cases hdel : f0.name ∈ (varFuncs m.funcs varIdx).map (fun g => g.name)
    · obtain ⟨g, hgv, hgname⟩ := List.mem_map.mp hdel
      have hgm : g ∈ m.funcs := ((varFuncs_mem _ _ _).mp hgv).1
      have hfg : g = f0 := List.inj_on_of_nodup_map hnodup hgm hf0 hgname
      subst hfg
      have hex : ∃ a ∈ g.vars, a.id = varIdx := ((varFuncs_mem _ _ _).mp hgv).2
      have hiN : i ∈ neighborIds m.funcs varIdx :=
        (neighborIds_mem _ _ _).mpr ⟨g, hf0, hex, w0, hw0, hwid0⟩
      have hidi : (m.vars.getD i defaultVar).id = i := hid_at i hi
      have hinb : m.vars.getD i defaultVar ∈ blanketOf m varIdx := by
        simp only [blanketOf, List.mem_map, List.mem_filter, List.mem_range]
        exact ⟨i, ⟨hi, (list_contains_iff _ _).mpr hiN⟩, rfl⟩
      have hinpf : m.vars.getD i defaultVar ∈ pf3.vars := by
        rw [hvars]
        refine List.mem_filter.mpr ⟨hinb, ?_⟩
        rw [Bool.not_eq_true', beq_eq_false_iff_ne, hidi, hidIdx]
        exact hne_i
      have hpfname_not : pf3.name ∉ (varFuncs m.funcs varIdx).map (fun g2 => g2.name) := by
        intro hmem2
        obtain ⟨g2, hg2v, hg2n⟩ := List.mem_map.mp hmem2
        have hg2m : g2 ∈ m.funcs := ((varFuncs_mem _ _ _).mp hg2v).1
        exact hfresh g2 hg2m (hg2n.trans hname)
      have hpf3mem : pf3 ∈ m2.funcs := by
        rw [hfuncs]
        refine List.mem_filter.mpr ⟨List.mem_append.mpr (Or.inr (by simp)), ?_⟩
        rw [Bool.not_eq_true']
        have hcf : ¬ ((varFuncs m.funcs varIdx).map (fun g2 => g2.name)).contains pf3.name
            = true := fun hc => hpfname_not ((list_contains_iff _ _).mp hc)
        simpa using hcf
      exact ⟨pf3, hpf3mem, m.vars.getD i defaultVar, hinpf, hidi⟩
    · have hf0m2 : f0 ∈ m2.funcs := by
        rw [hfuncs]
        refine List.mem_filter.mpr ⟨List.mem_append.mpr (Or.inl hf0), ?_⟩
        rw [Bool.not_eq_true']
        have hcf : ¬ ((varFuncs m.funcs varIdx).map (fun g2 => g2.name)).contains f0.name
            = true := fun hc => hdel ((list_contains_iff _ _).mp hc)
        simpa using hcf
      exact ⟨f0, hf0m2, w0, hw0, hwid0⟩

/-- The witness factor over A,B with a unique name. -/
noncomputable def c2wF : Function :=
  { name := "f-0", vars := [c2A, c2B], table := [0, 0, 0, 0], isLog := true }

/-- The C2 witness model: two variables, one factor with a unique name. -/
noncomputable def c2wM : Model :=
  { type := "MARKOV", name := "c2wit", vars := [c2A, c2B], funcs := [c2wF] }

/-- The witness model after compaction. -/
noncomputable def c2wMmid : Model :=
  { type := "MARKOV", name := "c2wit", vars := [c2A, c2B], funcs := [c2PfLog] }

/-- The final witness model: A collapsed, B still covered by the collapsed
factor. -/
noncomputable def c2wM2 : Model :=
  { type := "MARKOV", name := "c2wit", vars := [c2Dest, c2B], funcs := [c2PfLog] }

theorem c2w_stage1 : collapse c2wM 0 (fun _ => 0)
    = collapseCompact c2wM 0 ["f-0"] c2CvRaw c2PfRaw (fun _ => 0) := rfl

theorem c2w_stage4 : collapseCompact c2wM 0 ["f-0"] c2CvRaw c2PfRaw (fun _ => 0)
    = collapseEnd c2wMmid 0 c2A (fun _ => 0) := by
  simp only [collapseCompact, c2_stage2, c2_stage3]
  rfl

theorem c2w_fcs : functionsChangedSimple c2wMmid (fun _ => 0) = .ok () := by
  simp only [functionsChangedSimple, c2wMmid, c2PfLog, List.any_cons,
    List.any_nil, Bool.not_true, Bool.or_false, Bool.false_or,
    List.enum, List.enumFrom, fcDrawLoop, c2A, c2B, c2_ws_half]
  norm_num [c2_ws_half]

theorem c2w_check : c2wMmid.check = .ok () := by
  have hA := varCheck_half c2A rfl rfl rfl
  have hB := varCheck_half c2B rfl rfl rfl
  simp only [Model.check, c2wMmid, modelCheckVars, hA, hB]
  norm_num [c2A, c2B, modelCheckFuncs, calcTabSize, c2PfLog]

theorem c2w_stage5 : collapseEnd c2wMmid 0 c2A (fun _ => 0) = .ok (c2wM2, c2Dest) := by
  simp only [collapseEnd, c2w_fcs, c2w_check,
    show functionsChangedCollapsed c2wMmid = .ok () from rfl]
  rfl

theorem c2w_eval : collapse c2wM 0 (fun _ => 0) = .ok (c2wM2, c2Dest) := by
  rw [c2w_stage1, c2w_stage4, c2w_stage5]

theorem claim_C2_wit :
    c2wM2.vars.length = c2wM.vars.length ∧
    c2wM2.funcs ≠ [] ∧
    (∀ f ∈ c2wM2.funcs, ∀ w ∈ f.vars, w.id ≠ c2Dest.id) ∧
    (∀ i, i < c2wM.vars.length → (c2wM2.vars.getD i defaultVar).collapsed = false →
      ∃ f ∈ c2wM2.funcs, ∃ w ∈ f.vars, w.id = i) := by
  obtain ⟨h1, h2, h3, h4⟩ := claim_C2 c2wM 0 (fun _ => 0) c2wM2 c2Dest c2w_eval
  refine ⟨h1, h2, h3, h4 (by simp [c2wM, c2wF]) ?_ ?_⟩
  · intro f hf
    rw [show c2wM.funcs = [c2wF] from rfl, List.mem_singleton] at hf
    subst hf
    decide
  · intro i hi hcol
    rw [show c2wM.vars.length = 2 from rfl] at hi
    interval_cases i
    · exact ⟨c2wF, by simp [c2wM], c2A, by simp [c2wF], rfl⟩
    · exact ⟨c2wF, by simp [c2wM], c2B, by simp [c2wF], rfl⟩

end Grample
